import Mathlib

/-!
# Verification of the declarative-schema compiler and FK validator/patcher

This file gives a shallow embedding, in Lean 4, of the core functions of the
repository:

* `validate_fk.py` — the FK consistency checker (`find_fk_targets`,
  `parse_ref_target`, `iter_fields`, `infer_table_name`, and the exit-code
  logic of `main`);
* `apply_fk_patch_v2.py` — the recursive FK patcher (`patch_field_in_node`);
* `apply_fk_patch.py` — the container-based FK patcher (`set_field_ref_table`);
* `scripts/generate_sql_from_yaml.py` — the SQL generator (`normalize_pg_type`,
  `column_line`, `gen_table_sql`, `gen_view_sql`, and the emission loop of
  `main`).

Python values parsed from YAML are modelled by the mutual inductive type
`Yaml` / `YSeq` / `YMap` (scalars, sequences, ordered string-keyed mappings).
Python string operations (`strip`, `lower`, `split`, `endswith`, `replace`,
f-string interpolation, `str()`/`repr()`) are modelled by executable functions
over `List Char`.  Fallible Python code (raised exceptions) is modelled with
`Except String`.
-/

set_option maxHeartbeats 1000000

namespace SchemaSpec

/-! ## Character-list string primitives -/

/-- The whitespace characters stripped by Python's `str.strip()`
(ASCII subset: space, tab, newline, carriage return, vertical tab, form feed). -/
def isPySpace (c : Char) : Bool :=
  c = ' ' ∨ c = '\t' ∨ c = '\n' ∨ c = '\r' ∨ c = '\x0b' ∨ c = '\x0c'

/-- Drop leading Python whitespace from a character list. -/
def dropLeadingWs (l : List Char) : List Char := l.dropWhile isPySpace

/-- Python `str.strip()` on a character list: drop leading and trailing whitespace. -/
def pyStripL (l : List Char) : List Char :=
  ((dropLeadingWs l).reverse.dropWhile isPySpace).reverse

/-- Python `str.strip()`. -/
def pyStrip (s : String) : String := ⟨pyStripL s.data⟩

/-- Python `str.lower()` (ASCII). -/
def pyLower (s : String) : String := ⟨s.data.map Char.toLower⟩

/-- Python `str.upper()` (ASCII). -/
def pyUpper (s : String) : String := ⟨s.data.map Char.toUpper⟩

/-- Does `pre` start the list `l`? -/
def startsL : List Char → List Char → Bool
  | _, [] => true
  | [], _ :: _ => false
  | a :: as, b :: bs => a = b && startsL as bs

/-- Does `sub` occur as a contiguous run inside `l`? -/
def occursL : List Char → List Char → Bool
  | l, sub =>
    startsL l sub ||
      match l with
      | [] => false
      | _ :: t => occursL t sub

/-- Python `sub in s` (substring test). -/
def strOccurs (sub s : String) : Bool := occursL s.data sub.data

/-- Index of the first occurrence of `sub` in `l`, if any. -/
def firstOccurL : List Char → List Char → Option Nat
  | l, sub =>
    if startsL l sub then some 0
    else
      match l with
      | [] => none
      | _ :: t => (firstOccurL t sub).map (· + 1)

/-- Index of the first occurrence of a substring in a string. -/
def firstOccur (sub s : String) : Option Nat := firstOccurL s.data sub.data

/-- Python `s.startswith(pre)`. -/
def pyStartsWith (s pre : String) : Bool := startsL s.data pre.data

/-- Does `suf` end the list `l`? -/
def endsL (l suf : List Char) : Bool := startsL l.reverse suf.reverse

/-- Python `s.endswith(suf)`. -/
def pyEndsWith (s suf : String) : Bool := endsL s.data suf.data

/-- Python `s[:-n]` for `n ≤ len(s)`: drop the last `n` characters. -/
def strDropRight (s : String) (n : Nat) : String := ⟨s.data.take (s.data.length - n)⟩

/-- Python `str.replace(pat, rep)` (all occurrences, left to right), on lists.
`fuel` bounds recursion by the remaining text length. -/
def replaceLAux (pat rep : List Char) : Nat → List Char → List Char
  | _, [] => []
  | 0, l => l
  | fuel + 1, l@(c :: t) =>
    if pat ≠ [] ∧ startsL l pat then
      rep ++ replaceLAux pat rep fuel (l.drop pat.length)
    else
      c :: replaceLAux pat rep fuel t

/-- Python `str.replace(pat, rep)` (replaces every occurrence; empty pattern
is never used by the embedded code, and is treated as no-op here). -/
def strReplace (s pat rep : String) : String :=
  ⟨replaceLAux pat.data rep.data s.data.length s.data⟩

/-- Python `sep.join(parts)`. -/
def pyJoin (sep : String) : List String → String
  | [] => ""
  | [x] => x
  | x :: xs => x ++ sep ++ pyJoin sep xs

/-- Split a character list on a separator character, keeping empty chunks
(Python `str.split(c)`). -/
def splitChAux (c : Char) : List Char → List Char → List (List Char)
  | [], acc => [acc.reverse]
  | x :: xs, acc =>
    if x = c then acc.reverse :: splitChAux c xs []
    else splitChAux c xs (x :: acc)

/-- Python `s.split(".")` (single-character separator, empties kept). -/
def pySplitDot (s : String) : List String :=
  (splitChAux '.' s.data []).map (fun l => ⟨l⟩)

/-- All text after the first occurrence of `sep` in `l`
(Python `s.split(sep, 1)[1]`, assuming `sep` occurs). -/
def afterFirstL (sep : List Char) : List Char → List Char
  | [] => []
  | l@(_ :: t) =>
    if startsL l sep then l.drop sep.length
    else afterFirstL sep t

/-- Python `s.split(sep, 1)[1]` (text after the first occurrence of `sep`;
whole string unreachable when `sep` is absent — callers guard on occurrence). -/
def strAfterFirst (s sep : String) : String := ⟨afterFirstL sep.data s.data⟩

/-! ## The YAML value model

Parsed documents are trees of Python values: scalars (`str`, `int`, `bool`,
`None`), sequences, and insertion-ordered mappings with string keys (the
corpus uses string keys throughout).  `YSeq` and `YMap` are mutual with
`Yaml` so that structural recursion and induction stay first-class. -/

mutual

inductive Yaml where
  | str : String → Yaml
  | int : Int → Yaml
  | bool : Bool → Yaml
  | null : Yaml
  | seq : YSeq → Yaml
  | map : YMap → Yaml
  deriving DecidableEq

inductive YSeq where
  | nil : YSeq
  | cons : Yaml → YSeq → YSeq
  deriving DecidableEq

inductive YMap where
  | nil : YMap
  | cons : String → Yaml → YMap → YMap
  deriving DecidableEq

end

namespace YSeq

/-- The elements of a sequence as a Lean list. -/
def toList : YSeq → List Yaml
  | .nil => []
  | .cons v t => v :: toList t

end YSeq

namespace YMap

/-- Python `d.get(k)` / `d[k]`: the value at the first matching key. -/
def lookup : YMap → String → Option Yaml
  | .nil, _ => none
  | .cons k v t, key => if k = key then some v else lookup t key

/-- Python `d.get(k, dflt)`. -/
def getD (m : YMap) (key : String) (dflt : Yaml) : Yaml :=
  (m.lookup key).getD dflt

/-- Python `k in d`. -/
def hasKey (m : YMap) (key : String) : Bool := (m.lookup key).isSome

/-- Python `d[k] = v`: replace the value at an existing key in place,
else append the new pair at the end (dict insertion-order semantics). -/
def setKey : YMap → String → Yaml → YMap
  | .nil, key, v => .cons key v .nil
  | .cons k w t, key, v =>
    if k = key then .cons k v t else .cons k w (setKey t key v)

/-- The entries of a mapping as a Lean list. -/
def toList : YMap → List (String × Yaml)
  | .nil => []
  | .cons k v t => (k, v) :: toList t

/-- The keys of a mapping, in insertion order. -/
def keys : YMap → List String
  | .nil => []
  | .cons k _ t => k :: keys t

end YMap

/-! ## Python coercions and conversions on `Yaml` values -/

/-- Python truthiness: `""`, `0`, `False`, `None`, `[]`, `{}` are falsy. -/
def pyTruthy : Yaml → Bool
  | .str s => ¬s.isEmpty
  | .int n => n ≠ 0
  | .bool b => b
  | .null => false
  | .seq .nil => false
  | .seq (.cons _ _) => true
  | .map .nil => false
  | .map (.cons _ _ _) => true

/-- Python `a or b` (value semantics: `a` if truthy, else `b`). -/
def pyOr (a b : Yaml) : Yaml := if pyTruthy a then a else b

/-- Python `d.get(k) or dflt`. -/
def pyOrGet (m : YMap) (key : String) (dflt : Yaml) : Yaml :=
  match m.lookup key with
  | some v => pyOr v dflt
  | none => dflt

/-- Python's `repr` of a string: quoted, with backslash, quotes, and the
common control characters escaped.  Single quotes are preferred, double
quotes used when the text contains `'` but no `"`. -/
def pyReprStr (s : String) : String :=
  let q : Char := if s.data.contains '\'' && ¬s.data.contains '"' then '"' else '\''
  let esc : Char → List Char := fun c =>
    if c = '\\' then ['\\', '\\']
    else if c = q then ['\\', q]
    else if c = '\n' then ['\\', 'n']
    else if c = '\r' then ['\\', 'r']
    else if c = '\t' then ['\\', 't']
    else [c]
  ⟨q :: (s.data.flatMap esc) ++ [q]⟩

mutual

/-- Python `repr()` of a parsed value. -/
def pyRepr : Yaml → String
  | .str s => pyReprStr s
  | .int n => toString n
  | .bool b => if b then "True" else "False"
  | .null => "None"
  | .seq l => "[" ++ pyJoin ", " (pyReprSeq l) ++ "]"
  | .map m => "\x7b" ++ pyJoin ", " (pyReprMap m) ++ "\x7d"

/-- `repr` of each element of a sequence. -/
def pyReprSeq : YSeq → List String
  | .nil => []
  | .cons v t => pyRepr v :: pyReprSeq t

/-- `repr` of each `key: value` entry of a mapping. -/
def pyReprMap : YMap → List String
  | .nil => []
  | .cons k v t => (pyReprStr k ++ ": " ++ pyRepr v) :: pyReprMap t

end

/-- Python `str()` of a parsed value (`str` on a string is the identity;
containers and the remaining scalars print as their `repr`). -/
def pyStr : Yaml → String
  | .str s => s
  | v => pyRepr v

/-- Python `isinstance(v, int)`: `True` also for `bool` (a subclass of `int`). -/
def pyIsInt : Yaml → Bool
  | .int _ => true
  | .bool _ => true
  | _ => false

/-- The numeric value of a Python int-like value (`True` counts as 1). -/
def pyIntVal : Yaml → Int
  | .int n => n
  | .bool b => if b then 1 else 0
  | _ => 0

/-- `str()` of a Python int-like value (`True`/`False` keep their spelling,
so `f"varchar(\x7blength\x7d)"` with `length = True` prints `varchar(True)`). -/
def pyIntStr : Yaml → String
  | .int n => toString n
  | .bool b => if b then "True" else "False"
  | _ => ""

/-- Python `str(v).strip()` failing with `AttributeError` when `v` is not a
string: models `v.strip()` on an arbitrary value. -/
def expectStr : Yaml → Except String String
  | .str s => .ok s
  | _ => .error "TypeError: expected str"

/-- Python `s or dflt` for strings (empty string is falsy). -/
def pyOrStr (s dflt : String) : String := if s.isEmpty then dflt else s

/-! ## `validate_fk.py` — the FK consistency checker -/

/-- `validate_fk.infer_table_name`: prefer a non-blank `name`, then a
non-blank `table`, else the fallback (the file stem). -/
def inferTableName (doc : Yaml) (fallback : String) : String :=
  match doc with
  | .map m =>
    match m.lookup "name" with
    | some (.str n) =>
      if ¬(pyStrip n).isEmpty then pyStrip n
      else
        match m.lookup "table" with
        | some (.str t) => if ¬(pyStrip t).isEmpty then pyStrip t else fallback
        | _ => fallback
    | _ =>
      match m.lookup "table" with
      | some (.str t) => if ¬(pyStrip t).isEmpty then pyStrip t else fallback
      | _ => fallback
  | _ => fallback

/-- The mapping-valued elements of a sequence (`[x for x in val if isinstance(x, dict)]`). -/
def dictElems : YSeq → List YMap
  | .nil => []
  | .cons (.map m) t => m :: dictElems t
  | .cons _ t => dictElems t

/-- One probe of `iter_fields`: a list-valued key whose dict elements are
non-empty yields those dicts. -/
def fieldsAtKey (m : YMap) (key : String) : Option (List YMap) :=
  match m.lookup key with
  | some (.seq l) =>
    let c := dictElems l
    if c.isEmpty then none else some c
  | _ => none

/-- `validate_fk.iter_fields`: field dicts from `fields`/`columns` at the root
or under `schema`, first non-empty probe wins. -/
def iterFields (doc : Yaml) : List YMap :=
  match doc with
  | .map m =>
    match fieldsAtKey m "fields" with
    | some c => c
    | none =>
      match fieldsAtKey m "columns" with
      | some c => c
      | none =>
        match m.lookup "schema" with
        | some (.map sm) =>
          match fieldsAtKey sm "fields" with
          | some c => c
          | none => (fieldsAtKey sm "columns").getD []
        | _ => []
  | _ => []

/-- `validate_fk.parse_ref_target`: strip, split on `.`, and drop the last
component when more than one is present. -/
def parseRefTarget (refStr : String) : String :=
  let s := pyStrip refStr
  if s.isEmpty then ""
  else
    let parts := pySplitDot s
    match parts with
    | [p] => p
    | ps => pyJoin "." ps.dropLast

/-- The field name used by `find_fk_targets`: `str(f.get("name", "")).strip()`. -/
def fieldNameOf (f : YMap) : String := pyStrip (pyStr (f.getD "name" (.str "")))

/-- Pattern 1 of `find_fk_targets`: `xxx_id -> xxx` for names longer than 3. -/
def fkForm1 (name : String) : List (String × String) :=
  if pyEndsWith name "_id" ∧ name.length > 3 then [(name, strDropRight name 3)] else []

/-- Pattern 2 of `find_fk_targets`: a non-blank string `ref_table` key. -/
def fkForm2 (f : YMap) (name : String) : List (String × String) :=
  match f.lookup "ref_table" with
  | some (.str r) =>
    if ¬(pyStrip r).isEmpty then [(pyOrStr name "(unnamed)", pyStrip r)] else []
  | _ => []

/-- One probe of pattern 3 of `find_fk_targets`: a non-blank string under
`references` or `foreign_key`, parsed as a dotted target. -/
def fkForm3At (f : YMap) (name key : String) : List (String × String) :=
  match f.lookup key with
  | some (.str v) =>
    if ¬(pyStrip v).isEmpty then [(pyOrStr name ("(" ++ key ++ ")"), parseRefTarget v)]
    else []
  | _ => []

/-- Pattern 3 of `find_fk_targets` (both probed keys, in source order). -/
def fkForm3 (f : YMap) (name : String) : List (String × String) :=
  fkForm3At f name "references" ++ fkForm3At f name "foreign_key"

/-- One probe of pattern 4 of `find_fk_targets`. -/
def fkForm4At (f : YMap) (name ftype key : String) : List (String × String) :=
  match f.lookup key with
  | some (.str v) =>
    if ¬(pyStrip v).isEmpty then [(pyOrStr name ("(" ++ ftype ++ ")"), parseRefTarget v)]
    else []
  | _ => []

/-- Pattern 4 of `find_fk_targets`: a relational `type` plus one of
`ref`/`reference`/`target`/`comodel`/`model`. -/
def fkForm4 (f : YMap) (name : String) : List (String × String) :=
  let ftype := pyLower (pyStr (f.getD "type" (.str "")))
  if ftype = "fk" ∨ ftype = "foreign_key" ∨ ftype = "reference" ∨ ftype = "many2one" then
    fkForm4At f name ftype "ref" ++ fkForm4At f name ftype "reference" ++
      fkForm4At f name ftype "target" ++ fkForm4At f name ftype "comodel" ++
      fkForm4At f name ftype "model"
  else []

/-- Pattern 5 of `find_fk_targets`: a non-blank string `relation` key. -/
def fkForm5 (f : YMap) (name : String) : List (String × String) :=
  match f.lookup "relation" with
  | some (.str r) =>
    if ¬(pyStrip r).isEmpty then [(pyOrStr name "(relation)", pyStrip r)] else []
  | _ => []

/-- One probe of pattern 6 of `find_fk_targets`. -/
def fkForm6At (m2o : YMap) (name key : String) : List (String × String) :=
  match m2o.lookup key with
  | some (.str v) =>
    if ¬(pyStrip v).isEmpty then [(pyOrStr name "(many2one)", parseRefTarget v)]
    else []
  | _ => []

/-- Pattern 6 of `find_fk_targets`: a nested `many2one` mapping with
`comodel`/`model`/`table`. -/
def fkForm6 (f : YMap) (name : String) : List (String × String) :=
  match f.lookup "many2one" with
  | some (.map m2o) =>
    fkForm6At m2o name "comodel" ++ fkForm6At m2o name "model" ++ fkForm6At m2o name "table"
  | _ => []

/-- The candidates appended for one field by the loop body of
`find_fk_targets`, in source order. -/
def perFieldCandidates (f : YMap) : List (String × String) :=
  let name := fieldNameOf f
  fkForm1 name ++ fkForm2 f name ++ fkForm3 f name ++ fkForm4 f name ++
    fkForm5 f name ++ fkForm6 f name

/-- The accumulation loop of `find_fk_targets` over all fields. -/
def collectCandidates : List YMap → List (String × String)
  | [] => []
  | f :: rest => perFieldCandidates f ++ collectCandidates rest

/-- The final normalisation of `find_fk_targets`:
`[(fname, t.strip()) for fname, t in fks if isinstance(t, str) and t.strip()]`. -/
def normalizeCandidates : List (String × String) → List (String × String)
  | [] => []
  | (n, t) :: rest =>
    if (pyStrip t).isEmpty then normalizeCandidates rest
    else (n, pyStrip t) :: normalizeCandidates rest

/-- `validate_fk.find_fk_targets`. -/
def findFkTargets (fields : List YMap) : List (String × String) :=
  normalizeCandidates (collectCandidates fields)

/-- `Path(p).stem`: the final path component without its last suffix. -/
def pathStem (p : String) : String :=
  let comp := (splitChAux '/' p.data []).getLastD []
  let name : String := ⟨comp⟩
  let parts := splitChAux '.' comp []
  match parts with
  | [] => name
  | [_] => name
  | [x, _] => if x.isEmpty then name else ⟨x⟩
  | ps => pyJoin "." (ps.dropLast.map (fun l => ⟨l⟩))

/-- Is a loaded document the `load_yaml` parse-error marker
(`isinstance(doc, dict) and "__parse_error__" in doc`)? -/
def isParseError (doc : Yaml) : Bool :=
  match doc with
  | .map m => m.hasKey "__parse_error__"
  | _ => false

/-- Insert into the table-name set (`set.add`): membership semantics. -/
def addTable (tables : List String) (t : String) : List String :=
  if tables.contains t then tables else tables ++ [t]

/-- The outcome of one checker run over loaded documents. -/
structure CheckRun where
  tables : List String
  allFk : List (String × String × String)
  missing : List (String × String × String × String)
  parseErrors : List (String × Yaml)
  deriving DecidableEq

/-- First pass of `validate_fk.main`: record parse errors, and collect the
table-name set from the remaining documents. -/
def checkPass1 : List (String × Yaml) → List String → List (String × Yaml) →
    List String × List (String × Yaml)
  | [], tables, errs => (tables, errs)
  | (p, doc) :: rest, tables, errs =>
    if isParseError doc then
      checkPass1 rest tables
        (errs ++ [(p, (match doc with | .map m => m.getD "__parse_error__" .null | _ => .null))])
    else
      checkPass1 rest (addTable tables (inferTableName doc (pathStem p))) errs

/-- Second pass of `validate_fk.main`: all FK candidates and the missing ones. -/
def checkPass2 (tables : List String) :
    List (String × Yaml) → List (String × String × String) ×
      List (String × String × String × String)
  | [] => ([], [])
  | (p, doc) :: rest =>
    let (fkRest, missRest) := checkPass2 tables rest
    if isParseError doc then (fkRest, missRest)
    else
      let tname := inferTableName doc (pathStem p)
      let fks := findFkTargets (iterFields doc)
      let here := fks.map (fun pr => (tname, pr.1, pr.2))
      let missHere := (fks.filter (fun pr => ¬tables.contains pr.2)).map
        (fun pr => (tname, p, pr.1, pr.2))
      (here ++ fkRest, missHere ++ missRest)

/-- The whole-corpus scan of `validate_fk.main` (lines 251-282). -/
def runCheck (files : List (String × Yaml)) : CheckRun :=
  let (tables, errs) := checkPass1 files [] []
  let (allFk, missing) := checkPass2 tables files
  ⟨tables, allFk, missing, errs⟩

/-- The process exit status of `validate_fk.main`: 2 when the directory is
missing or no YAML file is found, else
`0 if not missing and not parse_errors else (1 if missing else 0)`. -/
def checkExit (dirExists : Bool) (files : List (String × Yaml)) : Nat :=
  if ¬dirExists then 2
  else if files.isEmpty then 2
  else
    let r := runCheck files
    if r.missing.isEmpty ∧ r.parseErrors.isEmpty then 0
    else if ¬r.missing.isEmpty then 1 else 0

/-! ## `apply_fk_patch_v2.py` — the recursive FK patcher

`patch_field_in_node` sets `ref_table` on a matching field dict *before*
iterating its (updated) entries, so the recursion is not structural; it is
well-founded on nesting depth (the inserted value is a scalar, so the set
step never increases depth), with structural size as tiebreaker. -/

mutual

/-- Nesting depth of a value (scalars are 0). -/
def ydepthY : Yaml → Nat
  | .seq l => ydepthS l + 1
  | .map m => ydepthM m + 1
  | _ => 0

/-- Nesting depth of a sequence's elements. -/
def ydepthS : YSeq → Nat
  | .nil => 0
  | .cons v t => max (ydepthY v) (ydepthS t)

/-- Nesting depth of a mapping's values. -/
def ydepthM : YMap → Nat
  | .nil => 0
  | .cons _ v t => max (ydepthY v) (ydepthM t)

end

/-- Setting a key to a scalar never increases a mapping's depth. -/
theorem ydepthM_setKey_scalar (m : YMap) (k s : String) :
    ydepthM (m.setKey k (.str s)) ≤ ydepthM m := by
  match m with
  | .nil => simp [YMap.setKey, ydepthM, ydepthY]
  | .cons k' v t =>
    have ih := ydepthM_setKey_scalar t k s
    simp only [YMap.setKey]
    by_cases h : k' = k
    · simp only [h, if_true, ydepthM, ydepthY, Nat.zero_max]
      exact Nat.le_max_right _ _
    · simp only [h, if_false, ydepthM]
      exact max_le_max (Nat.le_refl _) ih

/-- `apply_fk_patch_v2.is_field_dict`: a dict with a string-valued `name`. -/
def isFieldDict (m : YMap) : Bool :=
  m.hasKey "name" &&
    (match m.lookup "name" with
     | some (.str _) => true
     | _ => false)

/-- The conditional set step of `patch_field_in_node` on a dict node (lines
80-83): set `ref_table` when the node is a field dict named `fieldName` and
its current `ref_table` differs from the target. -/
def fieldSetStep (m : YMap) (fieldName refTable : String) : YMap × Nat :=
  if isFieldDict m ∧ m.lookup "name" = some (.str fieldName) then
    if m.lookup "ref_table" ≠ some (.str refTable) then
      (m.setKey "ref_table" (.str refTable), 1)
    else (m, 0)
  else (m, 0)

/-- The set step never increases the mapping's depth. -/
theorem ydepthM_fieldSetStep (m : YMap) (fn rt : String) :
    ydepthM (fieldSetStep m fn rt).1 ≤ ydepthM m := by
  unfold fieldSetStep
  split
  · split
    · exact ydepthM_setKey_scalar m _ _
    · exact Nat.le_refl _
  · exact Nat.le_refl _

mutual

/-- `apply_fk_patch_v2.patch_field_in_node`: recursively set `ref_table` on
every field dict named `fieldName`, returning the new node and the number of
changes.  The set step runs before the recursion into the (updated) entries,
exactly as the Python code iterates `list(node.items())` after mutating. -/
def patchNode (node : Yaml) (fieldName refTable : String) : Yaml × Nat :=
  match node with
  | .map m =>
    let step := fieldSetStep m fieldName refTable
    let rec2 := patchEntries step.1 fieldName refTable
    (.map rec2.1, step.2 + rec2.2)
  | .seq l =>
    let rec2 := patchElems l fieldName refTable
    (.seq rec2.1, rec2.2)
  | other => (other, 0)
  termination_by (ydepthY node, sizeOf node)
  decreasing_by
  · apply Prod.Lex.left
    calc ydepthM (fieldSetStep m fieldName refTable).1
        ≤ ydepthM m := ydepthM_fieldSetStep m fieldName refTable
      _ < ydepthM m + 1 := Nat.lt_succ_self _
  · apply Prod.Lex.left
    exact Nat.lt_succ_self _

/-- The loop `for k, v in list(node.items())` of `patch_field_in_node`. -/
def patchEntries (m : YMap) (fieldName refTable : String) : YMap × Nat :=
  match m with
  | .nil => (.nil, 0)
  | .cons k v t =>
    let rv := patchNode v fieldName refTable
    let rt' := patchEntries t fieldName refTable
    (.cons k rv.1 rt'.1, rv.2 + rt'.2)
  termination_by (ydepthM m, sizeOf m)
  decreasing_by
  · rcases Nat.lt_or_ge (ydepthY v) (ydepthM (YMap.cons k v t)) with h | h
    · exact Prod.Lex.left _ _ h
    · have he : ydepthY v = ydepthM (YMap.cons k v t) :=
        Nat.le_antisymm (by simp [ydepthM]) h
      rw [he]
      apply Prod.Lex.right
      simp
      omega
  · rcases Nat.lt_or_ge (ydepthM t) (ydepthM (YMap.cons k v t)) with h | h
    · exact Prod.Lex.left _ _ h
    · have he : ydepthM t = ydepthM (YMap.cons k v t) :=
        Nat.le_antisymm (by simp [ydepthM]) h
      rw [he]
      apply Prod.Lex.right
      simp

/-- The loop `for item in node` of `patch_field_in_node` on a list node. -/
def patchElems (l : YSeq) (fieldName refTable : String) : YSeq × Nat :=
  match l with
  | .nil => (.nil, 0)
  | .cons v t =>
    let rv := patchNode v fieldName refTable
    let rt' := patchElems t fieldName refTable
    (.cons rv.1 rt'.1, rv.2 + rt'.2)
  termination_by (ydepthS l, sizeOf l)
  decreasing_by
  · rcases Nat.lt_or_ge (ydepthY v) (ydepthS (YSeq.cons v t)) with h | h
    · exact Prod.Lex.left _ _ h
    · have he : ydepthY v = ydepthS (YSeq.cons v t) :=
        Nat.le_antisymm (by simp [ydepthS]) h
      rw [he]
      apply Prod.Lex.right
      simp
      omega
  · rcases Nat.lt_or_ge (ydepthS t) (ydepthS (YSeq.cons v t)) with h | h
    · exact Prod.Lex.left _ _ h
    · have he : ydepthS t = ydepthS (YSeq.cons v t) :=
        Nat.le_antisymm (by simp [ydepthS]) h
      rw [he]
      apply Prod.Lex.right
      simp

end

/-! ## `apply_fk_patch.py` — the container-based FK patcher

`set_field_ref_table` loads a document, normalises the four candidate field
containers (`fields`/`columns` at the root and under `schema`, dropping
non-dict elements — the Python code always rebuilds the list), patches every
matching field, and writes the document back only when something changed.
The model below returns the on-disk document after the call together with
the `changed` flag. -/

/-- `[x for x in val if isinstance(x, dict)]` as a sequence. -/
def filterDictSeq : YSeq → YSeq
  | .nil => .nil
  | .cons (.map m) t => .cons (.map m) (filterDictSeq t)
  | .cons _ t => filterDictSeq t

/-- The patch loop of `set_field_ref_table` over one container:
set `ref_table` on each dict whose stripped `name` equals `fieldName`. -/
def patchContainerSeq (l : YSeq) (fieldName refTable : String) : YSeq × Bool :=
  match l with
  | .nil => (.nil, false)
  | .cons v t =>
    let rest := patchContainerSeq t fieldName refTable
    match v with
    | .map fm =>
      if pyStrip (pyStr (fm.getD "name" (.str ""))) = fieldName then
        if fm.lookup "ref_table" ≠ some (.str refTable) then
          (.cons (.map (fm.setKey "ref_table" (.str refTable))) rest.1, true)
        else (.cons (.map fm) rest.1, rest.2)
      else (.cons (.map fm) rest.1, rest.2)
    | other => (.cons other rest.1, rest.2)

/-- One container probe of `get_fields_containers` followed by the patch
loop: returns the updated mapping, whether the key held a list (a container
was collected), and whether any field changed. -/
def slotFilterPatch (m : YMap) (key fieldName refTable : String) :
    YMap × Bool × Bool :=
  match m.lookup key with
  | some (.seq l) =>
    let fl := filterDictSeq l
    let r := patchContainerSeq fl fieldName refTable
    (m.setKey key (.seq r.1), true, r.2)
  | _ => (m, false, false)

/-- `apply_fk_patch.set_field_ref_table` on an in-memory document (disk
semantics: the returned document is the original one unless a change was
written back). -/
def setFieldRefTable (doc : Yaml) (fieldName refTable : String) : Yaml × Bool :=
  match doc with
  | .map dm =>
    let r1 := slotFilterPatch dm "fields" fieldName refTable
    let r2 := slotFilterPatch r1.1 "columns" fieldName refTable
    let r3 :=
      match r2.1.lookup "schema" with
      | some (.map sm) =>
        let s1 := slotFilterPatch sm "fields" fieldName refTable
        let s2 := slotFilterPatch s1.1 "columns" fieldName refTable
        (r2.1.setKey "schema" (.map s2.1), s1.2.1 || s2.2.1, s1.2.2 || s2.2.2)
      | _ => (r2.1, false, false)
    let anyContainer := r1.2.1 || r2.2.1 || r3.2.1
    let changed := r1.2.2 || r2.2.2 || r3.2.2
    if ¬anyContainer then (doc, false)
    else if changed then (.map r3.1, true)
    else (doc, false)
  | _ => (doc, false)

/-! ## `scripts/generate_sql_from_yaml.py` — the SQL generator -/

/-- `to_bool`: booleans pass through, `None` gives the default, anything else
is stringified, stripped, lowered and compared against the truthy tokens. -/
def toBool (val : Yaml) (dflt : Bool) : Bool :=
  match val with
  | .bool b => b
  | .null => dflt
  | v => ["1", "true", "yes", "y", "on"].contains (pyLower (pyStrip (pyStr v)))

/-- The identifier shape `[a-z_][a-z0-9_]*` accepted unquoted by `qident`. -/
def isSnakeIdent (s : String) : Bool :=
  match s.data with
  | [] => false
  | c :: cs => (c.isLower || c = '_') && cs.all (fun d => d.isLower || d.isDigit || d = '_')

/-- `qident`: quote an identifier unless it is simple snake case; embedded
double quotes are doubled. -/
def qident (name : String) : String :=
  if isSnakeIdent name then name
  else "\"" ++ strReplace name "\"" "\"\"" ++ "\""

/-- `qliteral`: `NULL` for `None`, numbers (and Python bools) verbatim,
everything else stringified and single-quoted with `'` doubled. -/
def qliteral (v : Yaml) : String :=
  match v with
  | .null => "NULL"
  | .int n => toString n
  | .bool b => if b then "True" else "False"
  | v => "'" ++ strReplace (pyStr v) "'" "''" ++ "'"

/-- The branch chain of `normalize_pg_type` (lines 53-90), over the already
stripped and lowered type token `t`; `col` is consulted for
`length`/`precision`/`scale`. -/
def normalizeTypeStr (col : YMap) (t : String) (defaultVarcharLen : Int) : String :=
  if pyStartsWith t "enum:" then
    "enum::" ++ pyStrip (strAfterFirst t ":")
  else if t = "varchar" ∨ t = "character varying" then
    match col.lookup "length" with
    | some l =>
      if pyIsInt l ∧ pyIntVal l > 0 then "varchar(" ++ pyIntStr l ++ ")"
      else "varchar(" ++ toString defaultVarcharLen ++ ")"
    | none => "varchar(" ++ toString defaultVarcharLen ++ ")"
  else if t = "text" then "text"
  else if t = "uuid" then "uuid"
  else if t = "int" ∨ t = "integer" then "integer"
  else if t = "bigint" then "bigint"
  else if t = "numeric" ∨ t = "decimal" then
    match col.lookup "precision", col.lookup "scale" with
    | some p, some s =>
      if pyIsInt p ∧ pyIsInt s then
        "numeric(" ++ pyIntStr p ++ "," ++ pyIntStr s ++ ")"
      else "numeric"
    | _, _ => "numeric"
  else if t = "boolean" ∨ t = "bool" then "boolean"
  else if t = "date" then "date"
  else if t = "timestamp" then "timestamp"
  else if t = "timestamptz" ∨ t = "timestamp with time zone" then "timestamptz"
  else if t = "jsonb" then "jsonb"
  else if t = "json" then "json"
  else pyOrStr t ("varchar(" ++ toString defaultVarcharLen ++ ")")

/-- `normalize_pg_type`: normalise a column's declared type to a PostgreSQL
type string (an `AttributeError` on a truthy non-string `type` value is an
`Except.error`). -/
def normalizePgType (col : YMap) (defaultVarcharLen : Int) : Except String String := do
  let ts ← expectStr (pyOrGet col "type" (.str ""))
  return normalizeTypeStr col (pyLower (pyStrip ts)) defaultVarcharLen

/-- `column_line`: one column's DDL fragment plus its optional comment. -/
def columnLine (col : YMap) (defaultVarcharLen : Int) :
    Except String (String × Option Yaml) := do
  let nameV := (col.lookup "name").getD .null
  if ¬pyTruthy nameV then throw "Kolom tanpa 'name' terdeteksi."
  let t ← normalizePgType col defaultVarcharLen
  let nullable := col.getD "nullable" (.bool true)
  let dfltO := col.lookup "default"
  let comment := col.lookup "comment"
  let nameS ← expectStr nameV
  let line := qident nameS ++ " "
  let line :=
    if pyStartsWith t "enum::" then line ++ qident (strAfterFirst t "::")
    else line ++ t
  let line := if ¬pyTruthy nullable then line ++ " NOT NULL" else line
  let line :=
    match dfltO with
    | some dv =>
      if dv ≠ .null then
        let sdef := pyStr dv
        if pyEndsWith sdef ":raw" then line ++ " DEFAULT " ++ strDropRight sdef 4
        else line ++ " DEFAULT " ++ qliteral dv
      else line
    | none => line
  return (line, comment)

/-- Python `dict`-element coercion: using a value as a mapping raises
(`AttributeError`) when it is not one. -/
def expectMap : Yaml → Except String YMap
  | .map m => .ok m
  | _ => .error "AttributeError: not a dict"

/-- Python iteration (`for x in v`): list elements, string characters, or
mapping keys; other scalars are not iterable. -/
def pyIterate : Yaml → Except String (List Yaml)
  | .seq l => .ok l.toList
  | .str s => .ok (s.data.map (fun c => .str ⟨[c]⟩))
  | .map m => .ok (m.keys.map .str)
  | _ => .error "TypeError: not iterable"

/-- Word characters of the regex `[a-zA-Z0-9_]`. -/
def isWordChar (c : Char) : Bool := c.isAlpha || c.isDigit || c = '_'

/-- `re.search(r"enum::([a-zA-Z0-9_]+)", line)`: the first `enum::` followed
by at least one word character, capturing the maximal word run. -/
def enumSearchL : List Char → Option String
  | [] => none
  | l@(_ :: t) =>
    if startsL l "enum::".data then
      let w := (l.drop 6).takeWhile isWordChar
      if w.isEmpty then enumSearchL t else some ⟨w⟩
    else enumSearchL t

/-- `re.search(r"enum::([a-zA-Z0-9_]+)", line)` on a string. -/
def enumSearch (line : String) : Option String := enumSearchL line.data

/-- The column loop of `gen_table_sql` (lines 185-197): column lines, column
comments (name, text), and the enum names needed. -/
def processColumns (cols : List Yaml) (sch : String) (defaultVarcharLen : Int) :
    Except String (List String × List (Yaml × Yaml) × List String) :=
  match cols with
  | [] => .ok ([], [], [])
  | c :: rest => do
    let cm ← expectMap c
    let lc ← columnLine cm defaultVarcharLen
    let line0 := lc.1
    let hd :=
      if strOccurs "enum::" line0 then
        match enumSearch line0 with
        | some en =>
          (strReplace line0 ("enum::" ++ en) (qident sch ++ "." ++ qident en), [en])
        | none => (line0, [])
      else (line0, [])
    let cmtsHere :=
      match lc.2 with
      | some cv => if pyTruthy cv then [(cm.getD "name" (.str ""), cv)] else []
      | none => []
    let tl ← processColumns rest sch defaultVarcharLen
    return (hd.1 :: tl.1, cmtsHere ++ tl.2.1, hd.2 ++ tl.2.2)

/-- The per-column primary-key scan of `gen_table_sql` (lines 208-211). -/
def perColumnPks : List Yaml → Except String (List Yaml)
  | [] => .ok []
  | c :: rest => do
    let cm ← expectMap c
    if toBool (cm.getD "primary_key" (.bool false)) false then
      match cm.lookup "name" with
      | some nv => do
        let tl ← perColumnPks rest
        return nv :: tl
      | none => throw "KeyError: 'name'"
    else perColumnPks rest

/-- The primary-key columns of `gen_table_sql` (lines 200-211): an explicit
truthy `primary_key` must be a list; otherwise per-column flags are scanned. -/
def pkColsOf (obj : YMap) (tnameV : Yaml) (cols : List Yaml) :
    Except String (List Yaml) :=
  match obj.lookup "primary_key" with
  | some v =>
    if pyTruthy v then
      match v with
      | .seq l => .ok l.toList
      | _ => .error ("Tabel " ++ pyStr tnameV ++ ": 'primary_key' harus list.")
    else perColumnPks cols
  | none => perColumnPks cols

/-- The unique-group loop of `gen_table_sql` (lines 216-222). -/
def buildUniqueGroups (tnameV : Yaml) : List Yaml → Except String (List (List Yaml))
  | [] => .ok []
  | u :: rest =>
    match u with
    | .seq l => do
      let tl ← buildUniqueGroups tnameV rest
      return l.toList :: tl
    | .str s => do
      let tl ← buildUniqueGroups tnameV rest
      return [Yaml.str s] :: tl
    | _ => .error ("Tabel " ++ pyStr tnameV ++ ": elemen 'uniques' tidak valid.")

/-- `', '.join(qident(c) for c in ...)` with the `TypeError` a non-string
element raises inside `re.fullmatch`. -/
def qidentAll : List Yaml → Except String (List String)
  | [] => .ok []
  | v :: rest => do
    let s ← expectStr v
    let tl ← qidentAll rest
    return qident s :: tl

/-- The check-constraint lines of `gen_table_sql` (lines 225-229). -/
def checkLinesOf (obj : YMap) : Except String (List String) := do
  let cs ← pyIterate (pyOrGet obj "checks" (.seq .nil))
  return cs.map (fun ch => "CHECK (" ++ pyStr ch ++ ")")

/-- One foreign-key line of `gen_table_sql` (lines 234-254). -/
def fkLineOf (fk : YMap) (tnameV : Yaml) (idx : Nat) (sch : String) :
    Except String String := do
  let cols := pyOrGet fk "columns" (.seq .nil)
  let refTableO := fk.lookup "ref_table"
  let refCols := pyOrGet fk "ref_columns" (.seq .nil)
  if ¬pyTruthy cols ∨ ¬pyTruthy (refTableO.getD .null) then
    throw ("Tabel " ++ pyStr tnameV ++ ": foreign key ke-" ++ toString idx ++
      " tidak valid (butuh 'columns' dan 'ref_table').")
  let refSchema := pyOrGet fk "ref_schema" (.str sch)
  let colsL ← pyIterate cols
  let colIds ← qidentAll colsL
  let refSchemaS ← expectStr refSchema
  let refTableS ← expectStr (refTableO.getD .null)
  let line := "FOREIGN KEY (" ++ pyJoin ", " colIds ++ ") REFERENCES " ++
    qident refSchemaS ++ "." ++ qident refTableS
  let line ←
    if pyTruthy refCols then do
      let rcs ← pyIterate refCols
      let rids ← qidentAll rcs
      pure (line ++ " (" ++ pyJoin ", " rids ++ ")")
    else pure line
  let line ←
    match fk.lookup "on_delete" with
    | some v =>
      if pyTruthy v then do
        let s ← expectStr v
        pure (line ++ " ON DELETE " ++ pyUpper s)
      else pure line
    | none => pure line
  let line ←
    match fk.lookup "on_update" with
    | some v =>
      if pyTruthy v then do
        let s ← expectStr v
        pure (line ++ " ON UPDATE " ++ pyUpper s)
      else pure line
    | none => pure line
  let line :=
    if toBool (fk.getD "deferrable" (.bool false)) false then
      let line := line ++ " DEFERRABLE"
      if toBool (fk.getD "initially_deferred" (.bool false)) false then
        line ++ " INITIALLY DEFERRED"
      else line
    else line
  return line

/-- The foreign-key loop of `gen_table_sql` (1-based `enumerate`). -/
def fkLinesAux (tnameV : Yaml) (sch : String) (idx : Nat) :
    List Yaml → Except String (List String)
  | [] => .ok []
  | fk :: rest => do
    let fkm ← expectMap fk
    let line ← fkLineOf fkm tnameV idx sch
    let tl ← fkLinesAux tnameV sch (idx + 1) rest
    return line :: tl

/-- The foreign-key lines of `gen_table_sql`
(`obj.get("foreign_keys") or obj.get("references") or []`). -/
def fkLinesOf (obj : YMap) (tnameV : Yaml) (sch : String) :
    Except String (List String) := do
  let fksV := pyOr ((obj.lookup "foreign_keys").getD .null)
    (pyOr ((obj.lookup "references").getD .null) (.seq .nil))
  let l ← pyIterate fksV
  fkLinesAux tnameV sch 1 l

/-- The `UNIQUE (...)` body parts of `gen_table_sql` (lines 267-268). -/
def uniquePartsOf : List (List Yaml) → Except String (List String)
  | [] => .ok []
  | g :: rest => do
    let ids ← qidentAll g
    let tl ← uniquePartsOf rest
    return ("UNIQUE (" ++ pyJoin ", " ids ++ ")") :: tl

/-- The optional `PRIMARY KEY (...)` body part (lines 264-265): present
exactly when `pk_cols` is non-empty. -/
def mkPkPart (pkCols : List Yaml) : Except String (List String) :=
  if ¬pkCols.isEmpty then do
    let ids ← qidentAll pkCols
    pure ["PRIMARY KEY (" ++ pyJoin ", " ids ++ ")"]
  else pure []

/-- The body of the `CREATE TABLE` statement (lines 261-271): column lines,
then the optional `PRIMARY KEY`, unique groups, checks, and FK lines. -/
def mkBodyParts (colLines : List String) (pkCols : List Yaml)
    (uniqueGroups : List (List Yaml)) (checkLines fkLines : List String) :
    Except String (List String) := do
  let pkPart ← mkPkPart pkCols
  let uqParts ← uniquePartsOf uniqueGroups
  return colLines ++ pkPart ++ uqParts ++ checkLines ++ fkLines

/-- The `CREATE TABLE` statement text (lines 273-276). -/
def mkCreateLine (fqname : String) (bodyParts : List String)
    (tablespace : Option String) : String :=
  let base := "CREATE TABLE " ++ fqname ++ " (\n    " ++
    pyJoin ",\n    " bodyParts ++ "\n)"
  let base :=
    match tablespace with
    | some ts => base ++ " TABLESPACE " ++ qident ts
    | none => base
  base ++ ";"

/-- `gen_drop_stmt`. -/
def genDropStmt (objectType fqname : String) : String :=
  "DROP " ++ objectType ++ " IF EXISTS " ++ fqname ++ " CASCADE;"

/-- The column-comment statements of `gen_table_sql` (lines 286-287). -/
def commentStmts (fqname : String) :
    List (Yaml × Yaml) → Except String (List String)
  | [] => .ok []
  | (nv, cv) :: rest => do
    let ns ← expectStr nv
    let tl ← commentStmts fqname rest
    return ("COMMENT ON COLUMN " ++ fqname ++ "." ++ qident ns ++ " IS " ++
      qliteral cv ++ ";") :: tl

/-- The index loop of `gen_table_sql` (lines 291-307, 1-based `enumerate`;
an index without columns is skipped). -/
def indexStmts (tnameV : Yaml) (fqname : String) (tablespace : Option String)
    (i : Nat) : List Yaml → Except String (List String)
  | [] => .ok []
  | idx :: rest => do
    let im ← expectMap idx
    let cols := pyOrGet im "columns" (.seq .nil)
    if ¬pyTruthy cols then indexStmts tnameV fqname tablespace (i + 1) rest
    else do
      let inameV := pyOrGet im "name" (.str (pyStr tnameV ++ "_" ++ toString i ++ "_idx"))
      let inameS ← expectStr inameV
      let uniq := toBool (im.getD "unique" (.bool false)) false
      let line := "CREATE " ++ (if uniq then "UNIQUE " else "") ++ "INDEX " ++
        qident inameS ++ " ON " ++ fqname
      let line :=
        match im.lookup "using" with
        | some uv => if pyTruthy uv then line ++ " USING " ++ pyStr uv else line
        | none => line
      let colsL ← pyIterate cols
      let ids ← qidentAll colsL
      let line := line ++ " (" ++ pyJoin ", " ids ++ ");"
      let line :=
        match tablespace with
        | some ts => strDropRight line 1 ++ " TABLESPACE " ++ qident ts ++ ";"
        | none => line
      let tl ← indexStmts tnameV fqname tablespace (i + 1) rest
      return line :: tl

/-- `gen_table_sql`: the joined statement text for one table object and the
enum names it needs. -/
def genTableSql (obj : YMap) (schema : String) (owner : Option String)
    (withDrop : Bool) (defaultVarcharLen : Int) (tablespace : Option String) :
    Except String (String × List String) := do
  let schS ← expectStr (pyOrGet obj "schema" (.str schema))
  let sch := pyStrip schS
  let tnameV := (obj.lookup "name").getD .null
  if ¬pyTruthy tnameV then throw "Objek table tanpa 'name'."
  let tnameS ← expectStr tnameV
  let fqname := qident sch ++ "." ++ qident tnameS
  let columnsV := pyOrGet obj "columns" (.seq .nil)
  let colsL ←
    match columnsV with
    | .seq l =>
      if l.toList.isEmpty then
        throw ("Tabel " ++ pyStr tnameV ++ ": 'columns' kosong atau tidak valid.")
      else pure l.toList
    | _ => throw ("Tabel " ++ pyStr tnameV ++ ": 'columns' kosong atau tidak valid.")
  let pc ← processColumns colsL sch defaultVarcharLen
  let pkCols ← pkColsOf obj tnameV colsL
  let us ← pyIterate (pyOrGet obj "uniques" (.seq .nil))
  let uniqueGroups ← buildUniqueGroups tnameV us
  let checkLines ← checkLinesOf obj
  let fkLines ← fkLinesOf obj tnameV sch
  let pre := if withDrop then [genDropStmt "TABLE" fqname] else []
  let bodyParts ← mkBodyParts pc.1 pkCols uniqueGroups checkLines fkLines
  let createLine := mkCreateLine fqname bodyParts tablespace
  let tCommentStmts :=
    match obj.lookup "comment" with
    | some cv =>
      if pyTruthy cv then ["COMMENT ON TABLE " ++ fqname ++ " IS " ++ qliteral cv ++ ";"]
      else []
    | none => []
  let colCommentStmts ← commentStmts fqname pc.2.1
  let idxL ← pyIterate (pyOrGet obj "indexes" (.seq .nil))
  let idxOut ← indexStmts tnameV fqname tablespace 1 idxL
  let ownerStmts :=
    match owner with
    | some o => ["ALTER TABLE " ++ fqname ++ " OWNER TO " ++ qident o ++ ";"]
    | none => []
  let stmts := pre ++ [createLine] ++ tCommentStmts ++ colCommentStmts ++
    idxOut ++ ownerStmts
  return (pyJoin "\n" stmts, pc.2.2)

/-- `gen_view_sql`. -/
def genViewSql (obj : YMap) (schema : String) (owner : Option String)
    (withDrop : Bool) (materialized : Bool) : Except String String := do
  let schS ← expectStr (pyOrGet obj "schema" (.str schema))
  let sch := pyStrip schS
  let nameV := (obj.lookup "name").getD .null
  if ¬pyTruthy nameV then throw "Objek view tanpa 'name'."
  let nameS ← expectStr nameV
  let fqname := qident sch ++ "." ++ qident nameS
  let sqlV := pyOr ((obj.lookup "sql").getD .null) ((obj.lookup "definition").getD .null)
  if ¬pyTruthy sqlV then
    throw ("View " ++ pyStr nameV ++ ": butuh field 'sql' atau 'definition'.")
  let sqlS ← expectStr sqlV
  let kw := if materialized then "MATERIALIZED VIEW" else "VIEW"
  let pre := if withDrop then [genDropStmt kw fqname] else []
  let createKw := if materialized then "CREATE MATERIALIZED VIEW" else "CREATE VIEW"
  let stmt := createKw ++ " " ++ fqname ++ " AS\n" ++ pyStrip sqlS ++ ";"
  let post1 :=
    match owner with
    | some o => ["ALTER " ++ kw ++ " " ++ fqname ++ " OWNER TO " ++ qident o ++ ";"]
    | none => []
  let post2 :=
    match obj.lookup "comment" with
    | some cv =>
      if pyTruthy cv then ["COMMENT ON " ++ kw ++ " " ++ fqname ++ " IS " ++ qliteral cv ++ ";"]
      else []
    | none => []
  return pyJoin "\n" (pre ++ [stmt] ++ post1 ++ post2)

/-- `gen_create_enum`. -/
def genCreateEnum (enumName : String) (values : List String) (withDrop : Bool)
    (schema : String) (owner : Option String) : String :=
  let fqname := qident schema ++ "." ++ qident enumName
  let stmts :=
    (if withDrop then [genDropStmt "TYPE" fqname] else []) ++
    ["CREATE TYPE " ++ fqname ++ " AS ENUM (" ++
      pyJoin ", " (values.map (fun v => qliteral (.str v))) ++ ");"] ++
    (match owner with
     | some o => ["ALTER TYPE " ++ fqname ++ " OWNER TO " ++ qident o ++ ";"]
     | none => [])
  pyJoin "\n" stmts

/-- The outcome of loading one YAML file (the loader is an external
collaborator; a failed parse carries its message). -/
inductive LoadedDoc where
  | failed : String → LoadedDoc
  | parsed : Yaml → LoadedDoc
  deriving DecidableEq

/-- The classification state of the reading loop of `main` (lines 384-417). -/
structure Classified where
  enums : List (Yaml × List String)
  tables : List YMap
  views : List (YMap × Bool)
  errors : List String
  deriving DecidableEq

/-- Insert into the enum registry (`enum_registry[ename] = ...`): replace at
an existing key (keeping its position) or append. -/
def upsertEnum : List (Yaml × List String) → Yaml → List String →
    List (Yaml × List String)
  | [], k, v => [(k, v)]
  | (k', v') :: rest, k, v =>
    if k' = k then (k', v) :: rest else (k', v') :: upsertEnum rest k v

/-- Classification of one loaded file (the body of the `try` in `main`). -/
def classifyOne (path : String) (d : LoadedDoc) (acc : Classified) :
    Except String Classified := do
  match d with
  | .failed msg => throw msg
  | .parsed data =>
    let dm ←
      match data with
      | .map m => pure m
      | _ => throw "YAML harus berupa mapping/object."
    let kindV := pyOr ((dm.lookup "kind").getD .null)
      (pyOr ((dm.lookup "type").getD .null) (.str "table"))
    let kindS ← expectStr kindV
    let kind := pyLower (pyStrip kindS)
    if kind = "table" ∨ kind = "tabel" then
      return { acc with tables := acc.tables ++ [dm] }
    else if kind = "view" then
      return { acc with views := acc.views ++ [(dm, false)] }
    else if kind = "materialized_view" ∨ kind = "mview" ∨ kind = "mv" then
      return { acc with views := acc.views ++ [(dm, true)] }
    else if kind = "enum" then
      let enameV := (dm.lookup "name").getD .null
      let evalsV := pyOr ((dm.lookup "values").getD .null)
        ((dm.lookup "items").getD .null)
      match evalsV with
      | .seq l =>
        if ¬pyTruthy enameV ∨ l.toList.isEmpty then
          throw ("Enum di " ++ path ++ " tidak valid (butuh 'name' dan 'values').")
        else
          return { acc with enums := upsertEnum acc.enums enameV (l.toList.map pyStr) }
      | _ => throw ("Enum di " ++ path ++ " tidak valid (butuh 'name' dan 'values').")
    else
      return acc

/-- The reading loop of `main`: classify every file, collecting error
messages instead of stopping. -/
def classifyDocs : List (String × LoadedDoc) → Classified → Classified
  | [], acc => acc
  | (path, d) :: rest, acc =>
    match classifyOne path d acc with
    | .ok acc' => classifyDocs rest acc'
    | .error e =>
      classifyDocs rest { acc with errors := acc.errors ++ ["[ERROR] " ++ path ++ ": " ++ e] }

/-- The configuration surface of `main` (after argument normalisation). -/
structure GenConfig where
  defaultSchema : String
  owner : Option String
  withDrop : Bool
  defaultVarcharLen : Int
  tablespace : Option String
  createExtensions : List String
  strictMode : Bool

/-- The enum emission loop of `main` (lines 443-446). -/
def emitEnums (cfg : GenConfig) : List (Yaml × List String) →
    Except String (List String)
  | [] => .ok []
  | (ek, vals) :: rest => do
    let es ← expectStr ek
    let tl ← emitEnums cfg rest
    return genCreateEnum es vals cfg.withDrop cfg.defaultSchema cfg.owner :: "" :: tl

/-- The table emission loop of `main` (lines 451-467): on error the table is
skipped, except in strict mode where the run aborts. -/
def emitTables (cfg : GenConfig) : List YMap → Except String (List String)
  | [] => .ok []
  | obj :: rest =>
    match genTableSql obj cfg.defaultSchema cfg.owner cfg.withDrop
        cfg.defaultVarcharLen cfg.tablespace with
    | .ok r => do
      let tl ← emitTables cfg rest
      return r.1 :: "" :: tl
    | .error e =>
      if cfg.strictMode then
        .error ("[TABLE ERROR] " ++ pyStr (obj.getD "name" (.str "<unknown>")) ++ ": " ++ e)
      else emitTables cfg rest

/-- The view emission loop of `main` (lines 470-485). -/
def emitViews (cfg : GenConfig) : List (YMap × Bool) → Except String (List String)
  | [] => .ok []
  | (obj, isMv) :: rest =>
    match genViewSql obj cfg.defaultSchema cfg.owner cfg.withDrop isMv with
    | .ok v => do
      let tl ← emitViews cfg rest
      return v :: "" :: tl
    | .error e =>
      if cfg.strictMode then
        .error ("[VIEW ERROR] " ++ pyStr (obj.getD "name" (.str "<unknown>")) ++ ": " ++ e)
      else emitViews cfg rest

/-- The statement-building phase of `main` (lines 378-485): header, extension
and schema statements, enums, tables, views, in that order.  Strict-mode
aborts (`sys.exit(1)`) are `Except.error`. -/
def buildOutput (cfg : GenConfig) (files : List (String × LoadedDoc)) :
    Except String (List String) := do
  if files.isEmpty ∧ cfg.strictMode then throw "Tidak ditemukan file YAML"
  let cls := classifyDocs files ⟨[], [], [], []⟩
  if ¬cls.errors.isEmpty ∧ cfg.strictMode then throw (pyJoin "\n" cls.errors)
  let header := ["-- Auto-generated by scripts/generate_sql_from_yaml.py",
    "-- Do not edit manually.", "SET client_min_messages = WARNING;", ""]
  let extStmts := cfg.createExtensions.map
    (fun e => "CREATE EXTENSION IF NOT EXISTS " ++ qident e ++ ";")
  let schemaStmts := ["CREATE SCHEMA IF NOT EXISTS " ++ qident cfg.defaultSchema ++ ";"] ++
    (match cfg.owner with
     | some o => ["ALTER SCHEMA " ++ qident cfg.defaultSchema ++ " OWNER TO " ++ qident o ++ ";"]
     | none => []) ++ [""]
  let enumStmts ← emitEnums cfg cls.enums
  let tableStmts ← emitTables cfg cls.tables
  let viewStmts ← emitViews cfg cls.views
  return header ++ extStmts ++ schemaStmts ++ enumStmts ++ tableStmts ++ viewStmts

/-- The text written to the output file: `"\n".join(output).strip() + "\n"`. -/
def emittedText (out : List String) : String := pyStrip (pyJoin "\n" out) ++ "\n"

/-! ## Supporting lemmas: stripping -/

theorem dropWhile_head_false {α : Type} {p : α → Bool} :
    ∀ {l : List α} {c : α} {cs : List α}, l.dropWhile p = c :: cs → p c = false := by
  intro l
  induction l with
  | nil => intro c cs h; simp [List.dropWhile] at h
  | cons x xs ih =>
    intro c cs h
    rw [List.dropWhile_cons] at h
    by_cases hx : p x
    · simp [hx] at h
      exact ih h
    · simp [hx] at h
      rw [← h.1]
      exact Bool.of_not_eq_true hx

theorem dropWhile_cons_self {α : Type} {p : α → Bool} {c : α} {cs : List α}
    (h : p c = false) : (c :: cs).dropWhile p = c :: cs := by
  rw [List.dropWhile_cons, h]
  simp

theorem dropWhile_idem {α : Type} {p : α → Bool} (l : List α) :
    (l.dropWhile p).dropWhile p = l.dropWhile p := by
  cases h : l.dropWhile p with
  | nil => simp
  | cons c cs => exact dropWhile_cons_self (dropWhile_head_false h)

/-- A nonempty stripped list starts with a non-whitespace character. -/
theorem pyStripL_head_false {l : List Char} {c : Char} {cs : List Char}
    (h : pyStripL l = c :: cs) : isPySpace c = false := by
  unfold pyStripL dropLeadingWs at h
  set A := l.dropWhile isPySpace with hA
  have hsuf : A.reverse.dropWhile isPySpace <:+ A.reverse := List.dropWhile_suffix _
  have hpre : (A.reverse.dropWhile isPySpace).reverse <+: A := by
    have := List.reverse_prefix.mpr hsuf
    simpa using this
  rw [h] at hpre
  obtain ⟨t, ht⟩ := hpre
  have : A = c :: (cs ++ t) := by rw [← ht]; simp
  exact dropWhile_head_false (l := l) (by rw [← hA, this])

/-- Stripping is idempotent. -/
theorem pyStripL_idem (l : List Char) : pyStripL (pyStripL l) = pyStripL l := by
  have h1 : (pyStripL l).dropWhile isPySpace = pyStripL l := by
    cases h : pyStripL l with
    | nil => simp
    | cons c cs => exact dropWhile_cons_self (pyStripL_head_false h)
  show ((((pyStripL l).dropWhile isPySpace).reverse).dropWhile isPySpace).reverse = pyStripL l
  rw [h1]
  have h2 : (pyStripL l).reverse = (l.dropWhile isPySpace).reverse.dropWhile isPySpace := by
    unfold pyStripL dropLeadingWs
    simp
  rw [h2, dropWhile_idem]
  unfold pyStripL dropLeadingWs
  simp

theorem pyStrip_idem (s : String) : pyStrip (pyStrip s) = pyStrip s := by
  unfold pyStrip
  rw [pyStripL_idem]

/-- Stripping a list that starts with a non-whitespace character yields a
nonempty list. -/
theorem pyStripL_cons_ne_nil {c : Char} (cs : List Char) (h : isPySpace c = false) :
    pyStripL (c :: cs) ≠ [] := by
  unfold pyStripL dropLeadingWs
  rw [dropWhile_cons_self h]
  intro hcon
  have : (c :: cs).reverse.dropWhile isPySpace = [] := by
    simpa using congrArg List.reverse hcon
  rw [List.dropWhile_eq_nil_iff] at this
  have hc := this c (by simp)
  rw [h] at hc
  exact Bool.false_ne_true hc

/-! ## Supporting lemmas: substring occurrence -/

theorem startsL_iff : ∀ (l pre : List Char), startsL l pre = true ↔ ∃ rest, l = pre ++ rest
  | l, [] => by simp [startsL]
  | [], _ :: _ => by simp [startsL]
  | a :: as, b :: bs => by
    simp only [startsL, Bool.and_eq_true, decide_eq_true_eq, List.cons_append,
      startsL_iff as bs]
    constructor
    · rintro ⟨rfl, rest, rfl⟩
      exact ⟨rest, rfl⟩
    · rintro ⟨rest, h⟩
      obtain ⟨h1, h2⟩ := List.cons.inj h
      exact ⟨h1, rest, h2⟩

theorem occursL_iff : ∀ (l sub : List Char), occursL l sub = true ↔ ∃ a b, l = a ++ sub ++ b
  | [], sub => by
    rw [occursL]
    simp only [Bool.or_false]
    rw [startsL_iff]
    constructor
    · rintro ⟨rest, h⟩
      obtain ⟨h1, h2⟩ := List.append_eq_nil.mp h.symm
      exact ⟨[], [], by simp [h1]⟩
    · rintro ⟨a, b, h⟩
      have h' : a ++ (sub ++ b) = [] := by simpa [List.append_assoc] using h.symm
      obtain ⟨-, h2⟩ := List.append_eq_nil.mp h'
      obtain ⟨h3, -⟩ := List.append_eq_nil.mp h2
      exact ⟨[], by simp [h3]⟩
  | x :: t, sub => by
    rw [occursL]
    simp only [Bool.or_eq_true, startsL_iff, occursL_iff t sub]
    constructor
    · rintro (⟨rest, hr⟩ | ⟨a, b, hr⟩)
      · exact ⟨[], rest, by simp [hr]⟩
      · exact ⟨x :: a, b, by simp [hr]⟩
    · rintro ⟨a, b, h⟩
      cases a with
      | nil => exact Or.inl ⟨b, by simpa using h⟩
      | cons y ys =>
        obtain ⟨-, h2⟩ := List.cons.inj (by simpa [List.cons_append] using h)
        exact Or.inr ⟨ys, b, by rw [h2, List.append_assoc]⟩

theorem strOccurs_iff (sub s : String) :
    strOccurs sub s = true ↔ ∃ a b, s.data = a ++ sub.data ++ b :=
  occursL_iff s.data sub.data

/-- A string equal to `c ++ x ++ d` contains `x`. -/
theorem strOccurs_of_decomp {x s : String} (c d : String) (h : s = c ++ x ++ d) :
    strOccurs x s = true := by
  rw [strOccurs_iff]
  exact ⟨c.data, d.data, by simp [h, String.data_append]⟩

theorem strOccurs_trans {a b c : String} (hab : strOccurs a b = true)
    (hbc : strOccurs b c = true) : strOccurs a c = true := by
  rw [strOccurs_iff] at *
  obtain ⟨u, v, huv⟩ := hab
  obtain ⟨w, z, hwz⟩ := hbc
  exact ⟨w ++ u, v ++ z, by simp [hwz, huv, List.append_assoc]⟩

/-- Every character of an occurring substring occurs in the text. -/
theorem mem_of_occursL {l sub : List Char} {c : Char} (h : occursL l sub = true)
    (hc : c ∈ sub) : c ∈ l := by
  rw [occursL_iff] at h
  obtain ⟨a, b, rfl⟩ := h
  simp [hc]

/-- A member of the joined parts is contained in the join. -/
theorem mem_pyJoin_decomp (sep : String) :
    ∀ (parts : List String) (x : String), x ∈ parts →
      ∃ c d, pyJoin sep parts = c ++ x ++ d
  | [], x, h => absurd h (by simp)
  | [y], x, h => by
    have hx : x = y := by simpa using h
    exact ⟨"", "", by simp [pyJoin, hx, String.empty_append, String.append_empty]⟩
  | y :: z :: zs, x, h => by
    rcases List.mem_cons.mp h with hx | hx
    · refine ⟨"", sep ++ pyJoin sep (z :: zs), ?_⟩
      show pyJoin sep (y :: z :: zs) = "" ++ x ++ (sep ++ pyJoin sep (z :: zs))
      rw [hx, String.empty_append]
      show y ++ sep ++ pyJoin sep (z :: zs) = y ++ (sep ++ pyJoin sep (z :: zs))
      rw [String.append_assoc]
    · obtain ⟨c, d, hcd⟩ := mem_pyJoin_decomp sep (z :: zs) x hx
      refine ⟨y ++ sep ++ c, d, ?_⟩
      show y ++ sep ++ pyJoin sep (z :: zs) = y ++ sep ++ c ++ x ++ d
      rw [hcd, ← String.append_assoc, ← String.append_assoc]

/-- A member of the joined parts occurs in the join. -/
theorem strOccurs_pyJoin_of_mem {sep x : String} {parts : List String}
    (h : x ∈ parts) : strOccurs x (pyJoin sep parts) = true := by
  obtain ⟨c, d, hcd⟩ := mem_pyJoin_decomp sep parts x h
  exact strOccurs_of_decomp c d hcd

/-! ## Supporting lemmas: FK candidate lists -/

theorem collectCandidates_append (l1 l2 : List YMap) :
    collectCandidates (l1 ++ l2) = collectCandidates l1 ++ collectCandidates l2 := by
  induction l1 with
  | nil => simp [collectCandidates]
  | cons f rest ih => simp [collectCandidates, ih]

/-- `normalizeCandidates` is a `filterMap`. -/
theorem normalizeCandidates_eq_filterMap (l : List (String × String)) :
    normalizeCandidates l = l.filterMap
      (fun p => if (pyStrip p.2).isEmpty then none else some (p.1, pyStrip p.2)) := by
  induction l with
  | nil => simp [normalizeCandidates]
  | cons p rest ih =>
    cases p with
    | mk n t =>
      by_cases h : (pyStrip t).isEmpty
      · simp [normalizeCandidates, h, ih, List.filterMap_cons]
      · simp [normalizeCandidates, h, ih, List.filterMap_cons]

/-- A raw candidate with a non-blank target survives normalisation. -/
theorem mem_normalizeCandidates_of_mem {l : List (String × String)} {n t : String}
    (h : (n, t) ∈ l) (ht : ¬(pyStrip t).isEmpty) :
    (n, pyStrip t) ∈ normalizeCandidates l := by
  rw [normalizeCandidates_eq_filterMap]
  exact List.mem_filterMap.mpr ⟨(n, t), h, by simp [ht]⟩

/-- Every normalised candidate is the stripped image of a raw candidate with
a non-blank target. -/
theorem of_mem_normalizeCandidates {l : List (String × String)} {x : String × String}
    (h : x ∈ normalizeCandidates l) :
    ∃ p ∈ l, x = (p.1, pyStrip p.2) ∧ ¬(pyStrip p.2).isEmpty := by
  rw [normalizeCandidates_eq_filterMap] at h
  obtain ⟨p, hp, hx⟩ := List.mem_filterMap.mp h
  by_cases he : (pyStrip p.2).isEmpty
  · rw [if_pos he] at hx
    exact absurd hx (by simp)
  · rw [if_neg he] at hx
    exact ⟨p, hp, (Option.some.inj hx).symm, he⟩

/-! ## Supporting lemmas: the type normalizer -/

/-- A string is empty iff its character list is. -/
theorem isEmpty_iff_data {s : String} : s.isEmpty = true ↔ s.data = [] := by
  rw [String.isEmpty_iff]
  constructor
  · intro h; rw [h]
  · intro h; exact String.ext h

/-- A truthy string `type` value flows unchanged into the branch chain. -/
theorem normalizePgType_of_str {col : YMap} {s : String}
    (h : col.lookup "type" = some (.str s)) (hs : s ≠ "") (d : Int) :
    normalizePgType col d = .ok (normalizeTypeStr col (pyLower (pyStrip s)) d) := by
  unfold normalizePgType
  rw [show pyOrGet col "type" (.str "") = .str s by
    simp [pyOrGet, h, pyOr, pyTruthy, String.isEmpty_iff, hs]]
  rfl

/-- The `varchar` branch of the chain (also reachable as
`character varying`). -/
theorem normalizeTypeStr_varchar (col : YMap) (d : Int) :
    normalizeTypeStr col "varchar" d =
      (match col.lookup "length" with
       | some l =>
         if pyIsInt l = true ∧ pyIntVal l > 0 then "varchar(" ++ pyIntStr l ++ ")"
         else "varchar(" ++ toString d ++ ")"
       | none => "varchar(" ++ toString d ++ ")") := rfl

theorem normalizeTypeStr_cvarying (col : YMap) (d : Int) :
    normalizeTypeStr col "character varying" d =
      (match col.lookup "length" with
       | some l =>
         if pyIsInt l = true ∧ pyIntVal l > 0 then "varchar(" ++ pyIntStr l ++ ")"
         else "varchar(" ++ toString d ++ ")"
       | none => "varchar(" ++ toString d ++ ")") := rfl

/-- The `numeric`/`decimal` branch of the chain. -/
theorem normalizeTypeStr_numeric (col : YMap) (d : Int) :
    normalizeTypeStr col "numeric" d =
      (match col.lookup "precision", col.lookup "scale" with
       | some p, some sc =>
         if pyIsInt p = true ∧ pyIsInt sc = true then
           "numeric(" ++ pyIntStr p ++ "," ++ pyIntStr sc ++ ")"
         else "numeric"
       | _, _ => "numeric") := rfl

theorem normalizeTypeStr_decimal (col : YMap) (d : Int) :
    normalizeTypeStr col "decimal" d =
      (match col.lookup "precision", col.lookup "scale" with
       | some p, some sc =>
         if pyIsInt p = true ∧ pyIsInt sc = true then
           "numeric(" ++ pyIntStr p ++ "," ++ pyIntStr sc ++ ")"
         else "numeric"
       | _, _ => "numeric") := rfl

/-- A type token that strips and lowers to something non-blank is itself
non-blank. -/
theorem ne_empty_of_lower_strip {s t : String} (h : pyLower (pyStrip s) = t)
    (ht : t ≠ "") : s ≠ "" := by
  intro he
  rw [he] at h
  exact ht h.symm

/-! ## Claim theorems: the type normalizer (C3, C6, C9) -/

/-- C9 — for every column whose type token is missing, `None`, or blank after
stripping, `normalize_pg_type` succeeds and returns the configured default
varchar type `varchar(<default_varchar_len>)`. -/
theorem normalize_missing_type_defaults_to_varchar (col : YMap) (d : Int)
    (h : col.lookup "type" = none ∨ col.lookup "type" = some .null ∨
      ∃ s, col.lookup "type" = some (.str s) ∧ pyStrip s = "") :
    normalizePgType col d = .ok ("varchar(" ++ toString d ++ ")") := by
  rcases h with h | h | ⟨s, h, hs⟩
  · unfold normalizePgType
    rw [show pyOrGet col "type" (.str "") = .str "" by simp [pyOrGet, h]]
    rfl
  · unfold normalizePgType
    rw [show pyOrGet col "type" (.str "") = .str "" by
      simp [pyOrGet, h, pyOr, pyTruthy]]
    rfl
  · by_cases hse : s = ""
    · unfold normalizePgType
      rw [show pyOrGet col "type" (.str "") = .str "" by
        simp [pyOrGet, h, hse, pyOr, pyTruthy]]
      rfl
    · rw [normalizePgType_of_str h hse d, hs]
      rfl

/-- Witness for C9 at a whitespace-only type token. -/
theorem normalize_missing_type_defaults_to_varchar_witness :
    normalizePgType (YMap.cons "type" (Yaml.str "   ") YMap.nil) 255 =
      .ok "varchar(255)" :=
  normalize_missing_type_defaults_to_varchar
    (YMap.cons "type" (Yaml.str "   ") YMap.nil) 255
    (Or.inr (Or.inr ⟨"   ", rfl, by decide⟩))

/-- C3 counterexample — the literal type `serial` is not rejected: the
normalizer returns it verbatim as the column type instead of raising a type
error (the claim asserts it is always rejected). -/
theorem serial_not_rejected_counterexample :
    normalizePgType (YMap.cons "type" (Yaml.str "serial") YMap.nil) 255 =
      .ok "serial" := rfl

/-- C3 amended — a type token that strips and lowers to `serial` matches no
branch of `normalize_pg_type` and is passed through verbatim (the permissive
fallback), never rejected, in every mode. -/
theorem serial_passes_through (col : YMap) (d : Int) (s : String)
    (h : col.lookup "type" = some (.str s))
    (hs : pyLower (pyStrip s) = "serial") :
    normalizePgType col d = .ok "serial" := by
  rw [normalizePgType_of_str h (ne_empty_of_lower_strip hs (by decide)) d, hs]
  rfl

/-- Witness for C3 at an upper-case spelling. -/
theorem serial_passes_through_witness :
    normalizePgType (YMap.cons "type" (Yaml.str " SERIAL ") YMap.nil) 7 =
      .ok "serial" :=
  serial_passes_through (YMap.cons "type" (Yaml.str " SERIAL ") YMap.nil) 7
    " SERIAL " rfl (by decide)

/-- C6 counterexample — a bare `char` column is passed through verbatim, not
given the configured default length (the claim asserts `varchar`/`char`
without a length use the default length). -/
theorem char_passthrough_counterexample :
    normalizePgType (YMap.cons "type" (Yaml.str "char") YMap.nil) 255 = .ok "char" ∧
    normalizePgType (YMap.cons "type" (Yaml.str "char") YMap.nil) 255 ≠ .ok "char(255)" := by
  refine ⟨rfl, ?_⟩
  intro hcon
  have h0 : normalizePgType (YMap.cons "type" (Yaml.str "char") YMap.nil) 255 =
      .ok "char" := rfl
  exact absurd (Except.ok.inj (h0.symm.trans hcon)) (by decide)

/-- C6 amended — the mapping behaviour claimed holds for `varchar` (and
`character varying`), but not for `char`: `varchar` without a positive
integer length renders with the configured default length; `numeric`/
`decimal` render as `numeric(p,s)` exactly when both `precision` and `scale`
are int-valued, else as bare `numeric`; and the two spec examples hold. -/
theorem type_mapping_varchar_numeric :
    (∀ (col : YMap) (d : Int) (s : String),
      col.lookup "type" = some (.str s) →
      (pyLower (pyStrip s) = "varchar" ∨ pyLower (pyStrip s) = "character varying") →
      (∀ l, col.lookup "length" = some l → ¬(pyIsInt l = true ∧ pyIntVal l > 0)) →
      normalizePgType col d = .ok ("varchar(" ++ toString d ++ ")")) ∧
    (∀ (col : YMap) (d : Int) (s : String) (p sc : Yaml),
      col.lookup "type" = some (.str s) →
      (pyLower (pyStrip s) = "numeric" ∨ pyLower (pyStrip s) = "decimal") →
      col.lookup "precision" = some p → col.lookup "scale" = some sc →
      pyIsInt p = true → pyIsInt sc = true →
      normalizePgType col d = .ok ("numeric(" ++ pyIntStr p ++ "," ++ pyIntStr sc ++ ")")) ∧
    (∀ (col : YMap) (d : Int) (s : String),
      col.lookup "type" = some (.str s) →
      (pyLower (pyStrip s) = "numeric" ∨ pyLower (pyStrip s) = "decimal") →
      (¬∃ p sc, col.lookup "precision" = some p ∧ col.lookup "scale" = some sc ∧
        pyIsInt p = true ∧ pyIsInt sc = true) →
      normalizePgType col d = .ok "numeric") ∧
    normalizePgType (YMap.cons "type" (Yaml.str "varchar")
      (YMap.cons "length" Yaml.null YMap.nil)) 255 = .ok "varchar(255)" ∧
    normalizePgType (YMap.cons "type" (Yaml.str "numeric")
      (YMap.cons "precision" (Yaml.int 12)
        (YMap.cons "scale" (Yaml.int 2) YMap.nil))) 255 = .ok "numeric(12,2)" := by
  refine ⟨?_, ?_, ?_, rfl, rfl⟩
  · intro col d s h ht hl
    rw [normalizePgType_of_str h
      (ne_empty_of_lower_strip (t := pyLower (pyStrip s)) rfl
        (by rcases ht with ht | ht <;> rw [ht] <;> decide)) d]
    refine congrArg Except.ok ?_
    have key : ∀ u : String, normalizeTypeStr col u d =
        (match col.lookup "length" with
         | some l =>
           if pyIsInt l = true ∧ pyIntVal l > 0 then "varchar(" ++ pyIntStr l ++ ")"
           else "varchar(" ++ toString d ++ ")"
         | none => "varchar(" ++ toString d ++ ")") →
        normalizeTypeStr col u d = "varchar(" ++ toString d ++ ")" := by
      intro u hu
      rw [hu]
      cases hc : col.lookup "length" with
      | none => rfl
      | some l =>
        show (if pyIsInt l = true ∧ pyIntVal l > 0 then "varchar(" ++ pyIntStr l ++ ")"
              else "varchar(" ++ toString d ++ ")") = "varchar(" ++ toString d ++ ")"
        exact if_neg (hl l hc)
    rcases ht with ht | ht <;> rw [ht]
    · exact key "varchar" (normalizeTypeStr_varchar col d)
    · exact key "character varying" (normalizeTypeStr_cvarying col d)
  · intro col d s p sc h ht hp hsc hip hisc
    rw [normalizePgType_of_str h
      (ne_empty_of_lower_strip (t := pyLower (pyStrip s)) rfl
        (by rcases ht with ht | ht <;> rw [ht] <;> decide)) d]
    refine congrArg Except.ok ?_
    have key : ∀ u : String, normalizeTypeStr col u d =
        (match col.lookup "precision", col.lookup "scale" with
         | some p', some sc' =>
           if pyIsInt p' = true ∧ pyIsInt sc' = true then
             "numeric(" ++ pyIntStr p' ++ "," ++ pyIntStr sc' ++ ")"
           else "numeric"
         | _, _ => "numeric") →
        normalizeTypeStr col u d = "numeric(" ++ pyIntStr p ++ "," ++ pyIntStr sc ++ ")" := by
      intro u hu
      rw [hu, hp, hsc]
      show (if pyIsInt p = true ∧ pyIsInt sc = true then
              "numeric(" ++ pyIntStr p ++ "," ++ pyIntStr sc ++ ")"
            else "numeric") = "numeric(" ++ pyIntStr p ++ "," ++ pyIntStr sc ++ ")"
      exact if_pos ⟨hip, hisc⟩
    rcases ht with ht | ht <;> rw [ht]
    · exact key "numeric" (normalizeTypeStr_numeric col d)
    · exact key "decimal" (normalizeTypeStr_decimal col d)
  · intro col d s h ht hn
    rw [normalizePgType_of_str h
      (ne_empty_of_lower_strip (t := pyLower (pyStrip s)) rfl
        (by rcases ht with ht | ht <;> rw [ht] <;> decide)) d]
    refine congrArg Except.ok ?_
    have key : ∀ u : String, normalizeTypeStr col u d =
        (match col.lookup "precision", col.lookup "scale" with
         | some p', some sc' =>
           if pyIsInt p' = true ∧ pyIsInt sc' = true then
             "numeric(" ++ pyIntStr p' ++ "," ++ pyIntStr sc' ++ ")"
           else "numeric"
         | _, _ => "numeric") →
        normalizeTypeStr col u d = "numeric" := by
      intro u hu
      rw [hu]
      cases hp : col.lookup "precision" with
      | none => rfl
      | some p =>
        cases hsc : col.lookup "scale" with
        | none => rfl
        | some sc =>
          show (if pyIsInt p = true ∧ pyIsInt sc = true then
                  "numeric(" ++ pyIntStr p ++ "," ++ pyIntStr sc ++ ")"
                else "numeric") = "numeric"
          exact if_neg fun hcon => hn ⟨p, sc, hp, hsc, hcon.1, hcon.2⟩
    rcases ht with ht | ht <;> rw [ht]
    · exact key "numeric" (normalizeTypeStr_numeric col d)
    · exact key "decimal" (normalizeTypeStr_decimal col d)

/-- Witness for C6: a mixed-case `varchar` with a boolean `False` length uses
the default length. -/
theorem type_mapping_varchar_numeric_witness :
    normalizePgType (YMap.cons "type" (Yaml.str " VarChar ")
      (YMap.cons "length" (Yaml.bool false) YMap.nil)) 100 = .ok "varchar(100)" :=
  type_mapping_varchar_numeric.1
    (YMap.cons "type" (Yaml.str " VarChar ") (YMap.cons "length" (Yaml.bool false) YMap.nil))
    100 " VarChar " rfl (Or.inl (by decide))
    (by
      intro l hl
      have hb : Yaml.bool false = l := Option.some.inj hl
      rw [← hb]
      decide)

/-! ## Supporting lemmas: the pattern matcher (C4, C7, C10) -/

/-- A stripped name of length above 3 keeps a non-blank core once `_id` (its
last three characters) is removed and the result is stripped again. -/
theorem strip_dropRight_not_blank {x : String} (hlen : (pyStrip x).length > 3) :
    ¬(pyStrip (strDropRight (pyStrip x) 3)).isEmpty = true := by
  cases hd : (pyStrip x).data with
  | nil =>
    exfalso
    have h0 : (pyStrip x).data.length > 3 := hlen
    rw [hd] at h0
    simp at h0
  | cons c cs =>
    have hc : isPySpace c = false := pyStripL_head_false hd
    obtain ⟨k, hk⟩ : ∃ k, (pyStrip x).data.length - 3 = k + 1 := by
      have h0 : (pyStrip x).data.length > 3 := hlen
      exact ⟨(pyStrip x).data.length - 4, by omega⟩
    intro hcon
    rw [isEmpty_iff_data] at hcon
    have hdata : (strDropRight (pyStrip x) 3).data = c :: cs.take k := by
      show (pyStrip x).data.take ((pyStrip x).data.length - 3) = c :: cs.take k
      rw [hk, hd, List.take_succ_cons]
    have hnil : pyStripL (c :: cs.take k) = [] := by
      rw [← hdata]
      exact hcon
    exact pyStripL_cons_ne_nil _ hc hnil

/-- A string of length above 3 is truthy. -/
theorem not_isEmpty_of_length {s : String} (h : s.length > 3) : ¬s.isEmpty = true := by
  intro hc
  rw [isEmpty_iff_data] at hc
  have h0 : s.data.length > 3 := h
  rw [hc] at h0
  simp at h0

/-- A raw candidate of a scanned field survives into `find_fk_targets`. -/
theorem mem_findFkTargets_of_perField {fields : List YMap} {f : YMap}
    (hf : f ∈ fields) {n t : String} (hp : (n, t) ∈ perFieldCandidates f)
    (hne : ¬(pyStrip t).isEmpty = true) :
    (n, pyStrip t) ∈ findFkTargets fields := by
  obtain ⟨pre, post, rfl⟩ := List.append_of_mem hf
  apply mem_normalizeCandidates_of_mem _ hne
  rw [collectCandidates_append]
  refine List.mem_append.mpr (Or.inr ?_)
  show (n, t) ∈ perFieldCandidates f ++ collectCandidates post
  exact List.mem_append.mpr (Or.inl hp)

/-- The two leading raw candidates of a scanned field survive, in order and
separately, into `find_fk_targets`. -/
theorem sublist_findFkTargets_of_perField {fields : List YMap} {f : YMap}
    (hf : f ∈ fields) {x y : String × String} {rest : List (String × String)}
    (hpf : perFieldCandidates f = x :: y :: rest)
    (hx : ¬(pyStrip x.2).isEmpty = true) (hy : ¬(pyStrip y.2).isEmpty = true) :
    List.Sublist [(x.1, pyStrip x.2), (y.1, pyStrip y.2)] (findFkTargets fields) := by
  obtain ⟨pre, post, rfl⟩ := List.append_of_mem hf
  have hsub : List.Sublist [x, y] (collectCandidates (pre ++ f :: post)) := by
    rw [collectCandidates_append]
    refine List.Sublist.trans ?_ (List.sublist_append_right (collectCandidates pre) _)
    show List.Sublist [x, y] (perFieldCandidates f ++ collectCandidates post)
    refine List.Sublist.trans ?_ (List.sublist_append_left (perFieldCandidates f) _)
    rw [hpf]
    exact List.Sublist.cons₂ x (List.Sublist.cons₂ y (List.nil_sublist rest))
  have himg := List.Sublist.filterMap
    (fun p => if (pyStrip p.2).isEmpty then none else some (p.1, pyStrip p.2)) hsub
  have himg2 : List.filterMap
      (fun p => if (pyStrip p.2).isEmpty then none else some (p.1, pyStrip p.2)) [x, y] =
      [(x.1, pyStrip x.2), (y.1, pyStrip y.2)] := by
    rw [List.filterMap_cons, List.filterMap_cons]
    rw [if_neg hx, if_neg hy]
    rfl
  rw [himg2, ← normalizeCandidates_eq_filterMap] at himg
  exact himg

/-! ## Claim theorems: the pattern matcher (C4, C7, C10) -/

/-- C10 — every `(field_name, target)` pair returned by `find_fk_targets` has
a target that is non-empty and carries no leading or trailing whitespace
(the final normalisation strips every target and drops blank ones). -/
theorem fk_targets_trimmed_nonempty (fields : List YMap) (n t : String)
    (h : (n, t) ∈ findFkTargets fields) : t ≠ "" ∧ pyStrip t = t := by
  obtain ⟨p, hp, hx, hne⟩ := of_mem_normalizeCandidates h
  have ht : t = pyStrip p.2 := congrArg Prod.snd hx
  subst ht
  constructor
  · intro he
    exact hne (by rw [String.isEmpty_iff]; exact he)
  · exact pyStrip_idem p.2

/-- Witness for C10 on a one-field corpus. -/
theorem fk_targets_trimmed_nonempty_witness :
    (("x_id", "x") ∈ findFkTargets [YMap.cons "name" (Yaml.str "x_id") YMap.nil]) ∧
    ("x" ≠ "" ∧ pyStrip "x" = "x") :=
  ⟨by decide,
   fk_targets_trimmed_nonempty [YMap.cons "name" (Yaml.str "x_id") YMap.nil]
     "x_id" "x" (by decide)⟩

/-- C7 counterexample — for the field named `"a _id"` (which ends in `_id`
and is longer than 3 characters) the matcher emits the candidate target
`"a"`, not the claim's `"a "` (the name with only the `_id` suffix
stripped): the final normalisation also trims whitespace. -/
theorem suffix_heuristic_counterexample :
    findFkTargets [YMap.cons "name" (Yaml.str "a _id") YMap.nil] = [("a _id", "a")] ∧
    ("a _id", "a ") ∉ findFkTargets [YMap.cons "name" (Yaml.str "a _id") YMap.nil] := by
  decide

/-- C7 amended — for every field whose stripped name ends in `_id` and is
longer than 3 characters, `find_fk_targets` emits a candidate whose target is
the stripped name with the `_id` suffix removed and surrounding whitespace
trimmed; the heuristic always fires, and a field failing the test contributes
no pattern-1 candidate. -/
theorem suffix_heuristic_always_applied (fields : List YMap) (f : YMap)
    (hf : f ∈ fields) :
    (pyEndsWith (fieldNameOf f) "_id" = true → (fieldNameOf f).length > 3 →
      (fieldNameOf f, pyStrip (strDropRight (fieldNameOf f) 3)) ∈ findFkTargets fields) ∧
    (¬(pyEndsWith (fieldNameOf f) "_id" = true ∧ (fieldNameOf f).length > 3) →
      fkForm1 (fieldNameOf f) = []) := by
  constructor
  · intro hend hlen
    have hmem : (fieldNameOf f, strDropRight (fieldNameOf f) 3) ∈ perFieldCandidates f := by
      unfold perFieldCandidates
      refine List.mem_append.mpr (Or.inl ?_)
      refine List.mem_append.mpr (Or.inl ?_)
      refine List.mem_append.mpr (Or.inl ?_)
      refine List.mem_append.mpr (Or.inl ?_)
      refine List.mem_append.mpr (Or.inl ?_)
      unfold fkForm1
      rw [if_pos ⟨hend, hlen⟩]
      exact List.mem_singleton.mpr rfl
    exact mem_findFkTargets_of_perField hf hmem (strip_dropRight_not_blank hlen)
  · intro hneg
    unfold fkForm1
    exact if_neg hneg

/-- Witness for C7 on a one-field corpus. -/
theorem suffix_heuristic_always_applied_witness :
    ("x_id", "x") ∈ findFkTargets [YMap.cons "name" (Yaml.str "x_id") YMap.nil] :=
  (suffix_heuristic_always_applied [YMap.cons "name" (Yaml.str "x_id") YMap.nil]
    (YMap.cons "name" (Yaml.str "x_id") YMap.nil) (by decide)).1
    (by decide) (by decide)

/-- C4 counterexample — a field with an explicit nested `fk.ref_table: "a"`
and a name `b_id` heuristically implying `"b"` yields only the heuristic
candidate: the matcher has no pattern for the nested `fk` mapping, so `"a"`
is never returned (the claim asserts both `"a"` and `"b"` are returned). -/
theorem nested_fk_ignored_counterexample :
    findFkTargets [YMap.cons "name" (Yaml.str "b_id")
        (YMap.cons "fk" (Yaml.map (YMap.cons "ref_table" (Yaml.str "a") YMap.nil))
          YMap.nil)] = [("b_id", "b")] ∧
    ("b_id", "a") ∉ findFkTargets [YMap.cons "name" (Yaml.str "b_id")
        (YMap.cons "fk" (Yaml.map (YMap.cons "ref_table" (Yaml.str "a") YMap.nil))
          YMap.nil)] := by
  decide

/-- C4 amended — the explicit form recognised by the matcher is a *top-level*
`ref_table` attribute, not a nested `fk.ref_table`: a field with a non-blank
top-level `ref_table: "a"` and a stripped name ending `_id` (length above 3)
implying `"b"` contributes both candidates as separate pairs, in pattern
order, with no deduplication and no override. -/
theorem explicit_and_heuristic_both_returned (fields : List YMap) (f : YMap)
    (r : String) (hf : f ∈ fields)
    (hr : f.lookup "ref_table" = some (.str r))
    (hrne : ¬(pyStrip r).isEmpty = true)
    (hend : pyEndsWith (fieldNameOf f) "_id" = true)
    (hlen : (fieldNameOf f).length > 3) :
    List.Sublist
      [(fieldNameOf f, pyStrip (strDropRight (fieldNameOf f) 3)),
       (fieldNameOf f, pyStrip r)]
      (findFkTargets fields) := by
  have hform2 : fkForm2 f (fieldNameOf f) = [(fieldNameOf f, pyStrip r)] := by
    unfold fkForm2
    rw [hr]
    show (if ¬(pyStrip r).isEmpty = true then
            [(pyOrStr (fieldNameOf f) "(unnamed)", pyStrip r)]
          else []) = [(fieldNameOf f, pyStrip r)]
    rw [if_pos hrne]
    unfold pyOrStr
    rw [if_neg (not_isEmpty_of_length hlen)]
  have hpf : perFieldCandidates f =
      (fieldNameOf f, strDropRight (fieldNameOf f) 3) ::
        (fieldNameOf f, pyStrip r) ::
        (fkForm3 f (fieldNameOf f) ++ fkForm4 f (fieldNameOf f) ++
          fkForm5 f (fieldNameOf f) ++ fkForm6 f (fieldNameOf f)) := by
    show fkForm1 (fieldNameOf f) ++ fkForm2 f (fieldNameOf f) ++ fkForm3 f (fieldNameOf f) ++
        fkForm4 f (fieldNameOf f) ++ fkForm5 f (fieldNameOf f) ++ fkForm6 f (fieldNameOf f) = _
    rw [show fkForm1 (fieldNameOf f) = [(fieldNameOf f, strDropRight (fieldNameOf f) 3)] by
      unfold fkForm1; rw [if_pos ⟨hend, hlen⟩]]
    rw [hform2]
    simp [List.append_assoc]
  have hstrips : pyStrip (pyStrip r) = pyStrip r := pyStrip_idem r
  have hr2 : ¬(pyStrip (pyStrip r)).isEmpty = true := by rw [hstrips]; exact hrne
  have := sublist_findFkTargets_of_perField hf hpf
    (x := (fieldNameOf f, strDropRight (fieldNameOf f) 3))
    (y := (fieldNameOf f, pyStrip r))
    (strip_dropRight_not_blank hlen) hr2
  rw [show pyStrip (pyStrip r) = pyStrip r from hstrips] at this
  exact this

/-- Witness for C4 on a one-field corpus. -/
theorem explicit_and_heuristic_both_returned_witness :
    List.Sublist [("b_id", "b"), ("b_id", "a")]
      (findFkTargets [YMap.cons "name" (Yaml.str "b_id")
        (YMap.cons "ref_table" (Yaml.str "a") YMap.nil)]) :=
  explicit_and_heuristic_both_returned
    [YMap.cons "name" (Yaml.str "b_id") (YMap.cons "ref_table" (Yaml.str "a") YMap.nil)]
    (YMap.cons "name" (Yaml.str "b_id") (YMap.cons "ref_table" (Yaml.str "a") YMap.nil))
    "a" (by decide) rfl (by decide) (by decide) (by decide)

/-! ## Claim theorem: the checker exit status (C1) -/

/-- A corpus with one clean table document and one document that failed to
parse (the `load_yaml` error marker), and no FK candidates at all. -/
def parseErrorCorpus : List (String × Yaml) :=
  [("struktur_data/a.yaml", .map (.cons "name" (.str "a") .nil)),
   ("struktur_data/bad.yaml", .map (.cons "__parse_error__" (.str "boom") .nil))]

/-- C1 — with a parse error present and no missing FK target, `main` returns
exit status 0: the final expression
`0 if not missing and not parse_errors else (1 if missing else 0)` yields 0
from its else-branch, so a parse error alone never affects the exit status,
contrary to the documented contract (0 = no missing and no parse errors). -/
theorem parse_error_exits_zero :
    (runCheck parseErrorCorpus).parseErrors =
      [("struktur_data/bad.yaml", Yaml.str "boom")] ∧
    (runCheck parseErrorCorpus).missing = [] ∧
    checkExit true parseErrorCorpus = 0 := by
  decide

/-! ## Claim theorems: FK statement placement (C2) -/

theorem mkBodyParts_ok {pk : List Yaml} {uq : List (List Yaml)} {a b : List String}
    (hp : mkPkPart pk = .ok a) (hu : uniquePartsOf uq = .ok b)
    (cl ck fk : List String) :
    mkBodyParts cl pk uq ck fk = .ok (cl ++ a ++ b ++ ck ++ fk) := by
  unfold mkBodyParts
  rw [hp, hu]
  rfl

theorem mkBodyParts_err1 {pk : List Yaml} {e : String} (hp : mkPkPart pk = .error e)
    (cl : List String) (uq : List (List Yaml)) (ck fk : List String) :
    mkBodyParts cl pk uq ck fk = .error e := by
  unfold mkBodyParts
  rw [hp]
  rfl

theorem mkBodyParts_err2 {pk : List Yaml} {uq : List (List Yaml)} {a : List String}
    {e : String} (hp : mkPkPart pk = .ok a) (hu : uniquePartsOf uq = .error e)
    (cl ck fk : List String) :
    mkBodyParts cl pk uq ck fk = .error e := by
  unfold mkBodyParts
  rw [hp, hu]
  rfl

/-- A successful table body is column lines, then the optional primary-key
and unique parts, then check and FK lines, in that order. -/
theorem mkBodyParts_shape {cl ck fk bp : List String} {pk : List Yaml}
    {uq : List (List Yaml)}
    (h : mkBodyParts cl pk uq ck fk = .ok bp) :
    ∃ a b, bp = cl ++ a ++ b ++ ck ++ fk := by
  cases hp : mkPkPart pk with
  | error e =>
    rw [mkBodyParts_err1 hp] at h
    exact absurd h (by simp)
  | ok a =>
    cases hu : uniquePartsOf uq with
    | error e =>
      rw [mkBodyParts_err2 hp hu] at h
      exact absurd h (by simp)
    | ok b =>
      rw [mkBodyParts_ok hp hu] at h
      exact ⟨a, b, (Except.ok.inj h).symm⟩

/-- The `CREATE TABLE` statement contains the joined body as a middle run. -/
theorem mkCreateLine_decomp (fq : String) (bp : List String) (ts : Option String) :
    ∃ c d, mkCreateLine fq bp ts = c ++ pyJoin ",\n    " bp ++ d := by
  cases ts with
  | none =>
    refine ⟨"CREATE TABLE " ++ fq ++ " (\n    ", "\n)" ++ ";", ?_⟩
    simp [mkCreateLine, String.append_assoc]
  | some t =>
    refine ⟨"CREATE TABLE " ++ fq ++ " (\n    ",
      "\n) TABLESPACE " ++ qident t ++ ";", ?_⟩
    simp [mkCreateLine, String.append_assoc]

/-- A two-table corpus in which `a.yaml` (first in sorted file order)
declares a foreign key on `b_id` referencing table `b` of `b.yaml`. -/
def fkOrderDocA : Yaml :=
  .map (.cons "name" (.str "a")
    (.cons "columns" (.seq (.cons
        (.map (.cons "name" (.str "id")
          (.cons "type" (.str "int") (.cons "primary_key" (.bool true) .nil))))
        (.cons (.map (.cons "name" (.str "b_id")
          (.cons "type" (.str "int") .nil))) .nil)))
    (.cons "foreign_keys" (.seq (.cons
        (.map (.cons "columns" (.seq (.cons (.str "b_id") .nil))
          (.cons "ref_table" (.str "b") .nil))) .nil)) .nil)))

/-- The referenced table `b`, later in file order. -/
def fkOrderDocB : Yaml :=
  .map (.cons "name" (.str "b")
    (.cons "columns" (.seq (.cons
        (.map (.cons "name" (.str "id")
          (.cons "type" (.str "int") (.cons "primary_key" (.bool true) .nil))))
        .nil)) .nil))

/-- Generator configuration: schema `public`, no owner, no drops, default
varchar length 255, no tablespace, no extensions, permissive mode. -/
def fkOrderCfg : GenConfig := ⟨"public", none, false, 255, none, [], false⟩

/-- The text the generator writes for the two-table corpus. -/
def fkOrderText : String :=
  emittedText ((buildOutput fkOrderCfg
    [("a.yaml", .parsed fkOrderDocA), ("b.yaml", .parsed fkOrderDocB)]).toOption.getD [])

set_option maxRecDepth 40000 in
/-- C2 counterexample — in the emitted SQL for the two-table corpus, the
FOREIGN KEY clause referencing `public.b` (inline in `a`'s CREATE TABLE,
first character index 256) appears strictly *before* `CREATE TABLE public.b`
(first character index 280): FK clauses are emitted inline in source document
order, not in a phase after all CREATE TABLE statements. -/
theorem fk_before_referenced_table_counterexample :
    firstOccur "REFERENCES public.b" fkOrderText = some 256 ∧
    firstOccur "CREATE TABLE public.b" fkOrderText = some 280 ∧
    256 < 280 := by
  refine ⟨by decide, by decide, by decide⟩

/-- C2 amended — the generator emits no separate FOREIGN KEY phase: every FK
clause of a table is placed inside that table's own CREATE TABLE statement
(the emitted create statement contains each generated FK line as a
substring), so an FK referencing a table that appears later in document
order precedes that table's creation. -/
theorem fk_clause_inside_create_table
    (colLines : List String) (pkCols : List Yaml) (uniqueGroups : List (List Yaml))
    (checkLines fkLines bodyParts : List String) (fqname : String)
    (tablespace : Option String) (l : String)
    (hb : mkBodyParts colLines pkCols uniqueGroups checkLines fkLines = .ok bodyParts)
    (hl : l ∈ fkLines) :
    strOccurs l (mkCreateLine fqname bodyParts tablespace) = true := by
  obtain ⟨a, b, rfl⟩ := mkBodyParts_shape hb
  have hmem : l ∈ colLines ++ a ++ b ++ checkLines ++ fkLines := by
    simp [hl]
  have h1 : strOccurs l
      (pyJoin ",\n    " (colLines ++ a ++ b ++ checkLines ++ fkLines)) = true :=
    strOccurs_pyJoin_of_mem hmem
  obtain ⟨c, d, hcd⟩ := mkCreateLine_decomp fqname
    (colLines ++ a ++ b ++ checkLines ++ fkLines) tablespace
  exact strOccurs_trans h1 (strOccurs_of_decomp c d hcd)

/-- Witness for C2 on a concrete one-FK table body. -/
theorem fk_clause_inside_create_table_witness :
    mkBodyParts ["id integer"] [] [] [] ["FOREIGN KEY (b_id) REFERENCES public.b"] =
      .ok ["id integer", "FOREIGN KEY (b_id) REFERENCES public.b"] ∧
    strOccurs "FOREIGN KEY (b_id) REFERENCES public.b"
      (mkCreateLine "public.a"
        ["id integer", "FOREIGN KEY (b_id) REFERENCES public.b"] none) = true :=
  ⟨rfl,
   fk_clause_inside_create_table ["id integer"] [] [] []
     ["FOREIGN KEY (b_id) REFERENCES public.b"]
     ["id integer", "FOREIGN KEY (b_id) REFERENCES public.b"]
     "public.a" none "FOREIGN KEY (b_id) REFERENCES public.b"
     rfl (by decide)⟩

/-! ## Claim theorems: primary-key cardinality (C5) -/

/-- The mapping of a column `{name: nm, type: int, primary_key: flag}`. -/
def pkFamColMap (p : String × Bool) : YMap :=
  .cons "name" (.str p.1)
    (.cons "type" (.str "int") (.cons "primary_key" (.bool p.2) .nil))

/-- A column `{name: nm, type: int, primary_key: flag}`. -/
def pkFamCol (p : String × Bool) : Yaml := .map (pkFamColMap p)

/-- A sequence of such columns. -/
def pkFamCols : List (String × Bool) → YSeq
  | [] => .nil
  | p :: rest => .cons (pkFamCol p) (pkFamCols rest)

/-- A table object `{name: t, columns: [...]}` over those columns. -/
def pkFamEntity (cols : List (String × Bool)) : YMap :=
  .cons "name" (.str "t") (.cons "columns" (.seq (pkFamCols cols)) .nil)

theorem pkFamCols_toList (cols : List (String × Bool)) :
    (pkFamCols cols).toList = cols.map pkFamCol := by
  induction cols with
  | nil => rfl
  | cons p rest ih => simp [pkFamCols, YSeq.toList, ih]

/-- Simple snake-case identifiers contain no colon. -/
theorem snake_no_colon {nm : String} (h : isSnakeIdent nm = true) :
    ':' ∉ nm.data := by
  unfold isSnakeIdent at h
  cases hd : nm.data with
  | nil => simp
  | cons c cs =>
    rw [hd] at h
    rw [Bool.and_eq_true] at h
    intro hmem
    rcases List.mem_cons.mp hmem with hc | hc
    · rw [← hc] at h
      exact absurd h.1 (by decide)
    · have := (List.all_eq_true.mp h.2) ':' hc
      exact absurd this (by decide)

/-- Simple snake-case identifiers are non-empty. -/
theorem snake_ne_empty {nm : String} (h : isSnakeIdent nm = true) : nm ≠ "" := by
  intro he
  rw [he] at h
  exact absurd h (by decide)

/-- `qident` leaves simple snake-case identifiers unquoted. -/
theorem qident_snake {nm : String} (h : isSnakeIdent nm = true) :
    qident nm = nm := by
  unfold qident
  rw [if_pos h]

/-- The `enum::` marker never occurs in a generated `nm integer` column line
for a snake-case name. -/
theorem no_enum_marker {nm : String} (h : isSnakeIdent nm = true) :
    strOccurs "enum::" (nm ++ " integer") = false := by
  by_contra hcon
  have htrue : strOccurs "enum::" (nm ++ " integer") = true := by
    cases hb : strOccurs "enum::" (nm ++ " integer")
    · exact absurd hb hcon
    · rfl
  have hcolon : ':' ∈ (nm ++ " integer").data :=
    mem_of_occursL htrue (by decide)
  rw [String.data_append] at hcolon
  rcases List.mem_append.mp hcolon with hc | hc
  · exact snake_no_colon h hc
  · exact absurd hc (by decide)

/-- One family column renders as `nm integer` with no comment. -/
theorem columnLine_pkFamCol (p : String × Bool) (d : Int)
    (h : isSnakeIdent p.1 = true) :
    columnLine (pkFamColMap p) d = .ok (p.1 ++ " integer", none) := by
  have h1 : pyTruthy (Yaml.str p.1) = true := by
    simp [pyTruthy, String.isEmpty_iff, snake_ne_empty h]
  have h2 : normalizePgType (pkFamColMap p) d = .ok "integer" := rfl
  rw [pkFamColMap] at h2
  simp +decide [columnLine, pkFamColMap, YMap.lookup, YMap.getD, h1, h2,
    expectStr, qident_snake h, Bind.bind, Except.bind, pure, Except.pure,
    String.append_assoc]

/-- The column loop over family columns: one `nm integer` line each, no
comments, no enums. -/
theorem processColumns_pkFam (cols : List (String × Bool)) (d : Int)
    (h : ∀ p ∈ cols, isSnakeIdent p.1 = true) :
    processColumns (cols.map pkFamCol) "public" d =
      .ok (cols.map (fun p => p.1 ++ " integer"), [], []) := by
  induction cols with
  | nil => rfl
  | cons p rest ih =>
    have hp := h p (by simp)
    have hrest := ih (fun q hq => h q (by simp [hq]))
    simp [processColumns, show expectMap (pkFamCol p) = Except.ok (pkFamColMap p) from rfl,
      columnLine_pkFamCol p d hp, no_enum_marker hp, hrest,
      Bind.bind, Except.bind, pure, Except.pure]

/-- The per-column primary-key scan over family columns collects exactly the
flagged names, in order. -/
theorem perColumnPks_pkFam (cols : List (String × Bool)) :
    perColumnPks (cols.map pkFamCol) =
      .ok ((cols.filter (fun p => p.2)).map (fun p => Yaml.str p.1)) := by
  induction cols with
  | nil => rfl
  | cons p rest ih =>
    cases hp2 : p.2 with
    | false =>
      simp [perColumnPks, show expectMap (pkFamCol p) = Except.ok (pkFamColMap p) from rfl,
        show toBool ((pkFamColMap p).getD "primary_key" (.bool false)) false = p.2 from rfl,
        hp2, ih, List.filter_cons, Bind.bind, Except.bind, pure, Except.pure]
    | true =>
      simp [perColumnPks, show expectMap (pkFamCol p) = Except.ok (pkFamColMap p) from rfl,
        show toBool ((pkFamColMap p).getD "primary_key" (.bool false)) false = p.2 from rfl,
        show (pkFamColMap p).lookup "name" = some (Yaml.str p.1) from rfl,
        hp2, ih, List.filter_cons, Bind.bind, Except.bind, pure, Except.pure]

/-- `qident` applied across a list of snake-case string values. -/
theorem qidentAll_snake (names : List String)
    (h : ∀ n ∈ names, isSnakeIdent n = true) :
    qidentAll (names.map Yaml.str) = .ok names := by
  induction names with
  | nil => rfl
  | cons n rest ih =>
    simp [qidentAll, expectStr, qident_snake (h n (by simp)),
      ih (fun m hm => h m (by simp [hm])), Bind.bind, Except.bind, pure, Except.pure]

/-- The optional primary-key body part over the flagged family columns. -/
theorem mkPkPart_pkFam (cols : List (String × Bool))
    (h : ∀ p ∈ cols, isSnakeIdent p.1 = true) :
    mkPkPart ((cols.filter (fun p => p.2)).map (fun p => Yaml.str p.1)) =
      .ok (if (cols.filter (fun p => p.2)).isEmpty then []
           else ["PRIMARY KEY (" ++
             pyJoin ", " ((cols.filter (fun p => p.2)).map (fun p => p.1)) ++ ")"]) := by
  have hmm : (cols.filter (fun p => p.2)).map (fun p => Yaml.str p.1) =
      ((cols.filter (fun p => p.2)).map (fun p => p.1)).map Yaml.str := by
    simp [List.map_map]
  have hq := qidentAll_snake ((cols.filter (fun p => p.2)).map (fun p => p.1))
    (by
      intro n hn
      obtain ⟨q, hq1, rfl⟩ := List.mem_map.mp hn
      exact h q (List.mem_of_mem_filter hq1))
  cases hf : cols.filter (fun p => p.2) with
  | nil => rfl
  | cons q qrest =>
    rw [hf] at hmm hq
    unfold mkPkPart
    rw [hmm, hq]
    simp [Bind.bind, Except.bind, pure, Except.pure]

/-- C5 counterexample — entities with zero or with two `primary_key: true`
columns are not rejected and no violation is produced: the generator accepts
both, emitting a CREATE TABLE without any PRIMARY KEY clause (zero) and one
with a composite `PRIMARY KEY (a, b)` (two). -/
theorem pk_cardinality_not_validated_counterexample :
    genTableSql (pkFamEntity [("a", false), ("b", false)]) "public" none false 255 none =
      .ok ("CREATE TABLE public.t (\n    a integer,\n    b integer\n);", []) ∧
    genTableSql (pkFamEntity [("a", true), ("b", true)]) "public" none false 255 none =
      .ok ("CREATE TABLE public.t (\n    a integer,\n    b integer,\n    PRIMARY KEY (a, b)\n);",
        []) :=
  ⟨rfl, rfl⟩

/-- C5 amended — the generator never rejects an entity for its primary-key
cardinality: for every non-empty family of snake-case columns with arbitrary
`primary_key` flags it succeeds, emitting no PRIMARY KEY clause when no
column is flagged and a composite `PRIMARY KEY` over all flagged columns, in
column order, when one or more are. -/
theorem pk_cardinality_silently_accepted (cols : List (String × Bool)) (d : Int)
    (hne : cols ≠ []) (h : ∀ p ∈ cols, isSnakeIdent p.1 = true) :
    genTableSql (pkFamEntity cols) "public" none false d none =
      .ok (mkCreateLine "public.t"
        (cols.map (fun p => p.1 ++ " integer") ++
          (if (cols.filter (fun p => p.2)).isEmpty then []
           else ["PRIMARY KEY (" ++
             pyJoin ", " ((cols.filter (fun p => p.2)).map (fun p => p.1)) ++ ")"]))
        none, []) := by
  obtain ⟨c0, crest, rfl⟩ := List.exists_cons_of_ne_nil hne
  have hpc := processColumns_pkFam (c0 :: crest) d h
  have hpk := perColumnPks_pkFam (c0 :: crest)
  have hpp := mkPkPart_pkFam (c0 :: crest) h
  have hbp := mkBodyParts_ok hpp (show uniquePartsOf [] = .ok [] from rfl)
    ((c0 :: crest).map (fun p => p.1 ++ " integer")) [] []
  simp only [List.map_cons] at hpc hpk hbp
  simp +decide [genTableSql, pkFamEntity, pkFamCols, YMap.lookup, pyOrGet, YMap.getD,
    pyOr, pyTruthy, expectStr, pkColsOf, pkFamCols_toList, buildUniqueGroups,
    hpc, hpk, hbp,
    checkLinesOf, fkLinesOf, fkLinesAux, pyIterate, commentStmts, indexStmts, pyJoin,
    YSeq.toList, show pyStrip "public" = "public" from rfl,
    show qident "public" = "public" from rfl, show qident "t" = "t" from rfl,
    pyStr, Bind.bind, Except.bind, pure, Except.pure]

/-- Witness for C5 on a three-column entity with two flags. -/
theorem pk_cardinality_silently_accepted_witness :
    genTableSql (pkFamEntity [("a", true), ("b", false), ("c", true)])
        "public" none false 255 none =
      .ok (mkCreateLine "public.t"
        (["a integer", "b integer", "c integer"] ++ ["PRIMARY KEY (" ++ pyJoin ", " ["a", "c"] ++ ")"])
        none, []) :=
  pk_cardinality_silently_accepted [("a", true), ("b", false), ("c", true)] 255
    (by decide) (by decide)

/-! ## Supporting lemmas: patcher idempotence (C8) -/

theorem lookup_setKey_self : ∀ (m : YMap) (k : String) (v : Yaml),
    (m.setKey k v).lookup k = some v
  | .nil, k, v => by simp [YMap.setKey, YMap.lookup]
  | .cons k' w t, k, v => by
    by_cases h : k' = k
    · simp [YMap.setKey, YMap.lookup, h]
    · simp [YMap.setKey, YMap.lookup, h, lookup_setKey_self t k v]

theorem lookup_setKey_ne : ∀ (m : YMap) {k k' : String} (v : Yaml), k' ≠ k →
    (m.setKey k v).lookup k' = m.lookup k'
  | .nil, k, k', v, h => by simp [YMap.setKey, YMap.lookup, Ne.symm h]
  | .cons k0 w t, k, k', v, h => by
    by_cases h0 : k0 = k
    · subst h0
      simp [YMap.setKey, YMap.lookup, Ne.symm h]
    · simp [YMap.setKey, YMap.lookup, h0, lookup_setKey_ne t v h]

theorem setKey_self_of_lookup : ∀ (m : YMap) {k : String} {v : Yaml},
    m.lookup k = some v → m.setKey k v = m
  | .nil, k, v, h => by simp [YMap.lookup] at h
  | .cons k' w t, k, v, h => by
    by_cases h0 : k' = k
    · subst h0
      simp [YMap.lookup] at h
      simp [YMap.setKey, h]
    · simp [YMap.lookup, h0] at h
      simp [YMap.setKey, h0, setKey_self_of_lookup t h]

/-- One-step equations of the patcher. -/
theorem patchNode_map (fn rt : String) (m : YMap) : patchNode (.map m) fn rt =
    (.map (patchEntries (fieldSetStep m fn rt).1 fn rt).1,
     (fieldSetStep m fn rt).2 + (patchEntries (fieldSetStep m fn rt).1 fn rt).2) := by
  unfold patchNode
  rfl

theorem patchNode_seq (fn rt : String) (l : YSeq) : patchNode (.seq l) fn rt =
    (.seq (patchElems l fn rt).1, (patchElems l fn rt).2) := by
  unfold patchNode
  rfl

theorem patchNode_scalar (fn rt : String) : ∀ {v : Yaml},
    (∀ m, v ≠ .map m) → (∀ l, v ≠ .seq l) → patchNode v fn rt = (v, 0) := by
  intro v hm hl
  cases v with
  | map m => exact absurd rfl (hm m)
  | seq l => exact absurd rfl (hl l)
  | str s => simp [patchNode]
  | int n => simp [patchNode]
  | bool b => simp [patchNode]
  | null => simp [patchNode]

theorem patchNode_str (fn rt s : String) : patchNode (.str s) fn rt = (.str s, 0) := by
  simp [patchNode]

theorem patchEntries_nil (fn rt : String) : patchEntries .nil fn rt = (.nil, 0) := by
  simp [patchEntries]

theorem patchEntries_cons (fn rt k : String) (v : Yaml) (t : YMap) :
    patchEntries (.cons k v t) fn rt =
      (.cons k (patchNode v fn rt).1 (patchEntries t fn rt).1,
       (patchNode v fn rt).2 + (patchEntries t fn rt).2) := by
  conv_lhs => unfold patchEntries

theorem patchElems_nil (fn rt : String) : patchElems .nil fn rt = (.nil, 0) := by
  simp [patchElems]

theorem patchElems_cons (fn rt : String) (v : Yaml) (t : YSeq) :
    patchElems (.cons v t) fn rt =
      (.cons (patchNode v fn rt).1 (patchElems t fn rt).1,
       (patchNode v fn rt).2 + (patchElems t fn rt).2) := by
  conv_lhs => unfold patchElems

/-- Patching never turns a non-string into a string or changes a string. -/
theorem patchNode_eq_str_iff (fn rt : String) (v : Yaml) (s : String) :
    (patchNode v fn rt).1 = .str s ↔ v = .str s := by
  cases v with
  | str s' => rw [patchNode_str]
  | int n => simp [patchNode]
  | bool b => simp [patchNode]
  | null => simp [patchNode]
  | seq l => rw [patchNode_seq]; simp
  | map m => rw [patchNode_map]; simp

theorem lookup_patchEntries (fn rt : String) : ∀ (m : YMap) (k : String),
    ((patchEntries m fn rt).1).lookup k =
      (m.lookup k).map (fun v => (patchNode v fn rt).1)
  | .nil, k => by rw [patchEntries_nil]; simp [YMap.lookup]
  | .cons k' v t, k => by
    rw [patchEntries_cons]
    by_cases h : k' = k
    · simp [YMap.lookup, h]
    · simp [YMap.lookup, h, lookup_patchEntries fn rt t k]

theorem toList_patchEntries (fn rt : String) : ∀ (m : YMap),
    ((patchEntries m fn rt).1).toList =
      m.toList.map (fun p => (p.1, (patchNode p.2 fn rt).1))
  | .nil => by rw [patchEntries_nil]; simp [YMap.toList]
  | .cons k v t => by
    rw [patchEntries_cons]
    simp [YMap.toList, toList_patchEntries fn rt t]

theorem toList_patchElems (fn rt : String) : ∀ (l : YSeq),
    ((patchElems l fn rt).1).toList =
      l.toList.map (fun v => (patchNode v fn rt).1)
  | .nil => by rw [patchElems_nil]; simp [YSeq.toList]
  | .cons v t => by
    rw [patchElems_cons]
    simp [YSeq.toList, toList_patchElems fn rt t]

theorem patchEntries_of_fixed (fn rt : String) : ∀ (m : YMap),
    (∀ p ∈ m.toList, patchNode p.2 fn rt = (p.2, 0)) →
    patchEntries m fn rt = (m, 0)
  | .nil, _ => patchEntries_nil fn rt
  | .cons k v t, h => by
    rw [patchEntries_cons]
    rw [h (k, v) (by simp [YMap.toList])]
    rw [patchEntries_of_fixed fn rt t (fun p hp => h p (by simp [YMap.toList, hp]))]
    rfl

theorem patchElems_of_fixed (fn rt : String) : ∀ (l : YSeq),
    (∀ v ∈ l.toList, patchNode v fn rt = (v, 0)) →
    patchElems l fn rt = (l, 0)
  | .nil, _ => patchElems_nil fn rt
  | .cons v t, h => by
    rw [patchElems_cons]
    rw [h v (by simp [YSeq.toList])]
    rw [patchElems_of_fixed fn rt t (fun w hw => h w (by simp [YSeq.toList, hw]))]
    rfl

theorem ydepth_of_mem_toListM : ∀ (m : YMap) {p : String × Yaml},
    p ∈ m.toList → ydepthY p.2 ≤ ydepthM m
  | .nil, p, h => by simp [YMap.toList] at h
  | .cons k v t, p, h => by
    rcases List.mem_cons.mp (by simpa [YMap.toList] using h) with hc | hc
    · rw [hc]
      simp [ydepthM]
    · calc ydepthY p.2 ≤ ydepthM t := ydepth_of_mem_toListM t hc
        _ ≤ ydepthM (YMap.cons k v t) := by simp [ydepthM]

theorem ydepth_of_mem_toListS : ∀ (l : YSeq) {v : Yaml},
    v ∈ l.toList → ydepthY v ≤ ydepthS l
  | .nil, v, h => by simp [YSeq.toList] at h
  | .cons w t, v, h => by
    rcases List.mem_cons.mp (by simpa [YSeq.toList] using h) with hc | hc
    · rw [hc]
      simp [ydepthS]
    · calc ydepthY v ≤ ydepthS t := ydepth_of_mem_toListS t hc
        _ ≤ ydepthS (YSeq.cons w t) := by simp [ydepthS]

/-- The set step is a no-op on a dict whose `ref_table` is already the target
whenever its `name` matches. -/
theorem fieldSetStep_of_ref (m' : YMap) (fn rt : String)
    (h : m'.lookup "name" = some (.str fn) → m'.lookup "ref_table" = some (.str rt)) :
    fieldSetStep m' fn rt = (m', 0) := by
  unfold fieldSetStep
  split
  · next hc => rw [if_neg (not_not_intro (h hc.2))]
  · rfl

/-- After one patch of a dict node, a dict whose `name` is the field name has
its `ref_table` set to the target. -/
theorem lookup_ref_after_patch (m : YMap) (fn rt : String)
    (hname : ((patchEntries (fieldSetStep m fn rt).1 fn rt).1).lookup "name" =
      some (.str fn)) :
    ((patchEntries (fieldSetStep m fn rt).1 fn rt).1).lookup "ref_table" =
      some (.str rt) := by
  rw [lookup_patchEntries] at hname ⊢
  by_cases hc : isFieldDict m ∧ m.lookup "name" = some (.str fn)
  · by_cases hr : m.lookup "ref_table" ≠ some (.str rt)
    · have hs1 : (fieldSetStep m fn rt).1 = m.setKey "ref_table" (.str rt) := by
        unfold fieldSetStep
        rw [if_pos hc, if_pos hr]
      rw [hs1, lookup_setKey_self]
      simp [patchNode_str]
    · have hr' : m.lookup "ref_table" = some (.str rt) := not_not.mp hr
      have hs1 : (fieldSetStep m fn rt).1 = m := by
        unfold fieldSetStep
        rw [if_pos hc, if_neg (not_not_intro hr')]
      rw [hs1, hr']
      simp [patchNode_str]
  · have hs1 : (fieldSetStep m fn rt).1 = m := by
      unfold fieldSetStep
      rw [if_neg hc]
    rw [hs1] at hname ⊢
    obtain ⟨v, hv, hfv⟩ := Option.map_eq_some'.mp hname
    have hv' : v = .str fn := (patchNode_eq_str_iff fn rt v fn).mp hfv
    subst hv'
    exact absurd ⟨by simp [isFieldDict, YMap.hasKey, hv], hv⟩ hc

/-- Patching is idempotent below any depth bound: a second run changes
nothing and counts zero. -/
theorem patchNode_idem_depth (fn rt : String) : ∀ (d : Nat) (y : Yaml),
    ydepthY y ≤ d →
    patchNode (patchNode y fn rt).1 fn rt = ((patchNode y fn rt).1, 0)
  | _, .str s, _ => by rw [patchNode_str, patchNode_str]
  | _, .int n, _ => by simp [patchNode]
  | _, .bool b, _ => by simp [patchNode]
  | _, .null, _ => by simp [patchNode]
  | 0, .seq l, hd => by simp [ydepthY] at hd
  | 0, .map m, hd => by simp [ydepthY] at hd
  | Nat.succ d, .seq l, hd => by
    have hdl : ydepthS l ≤ d := by
      have h1 : ydepthS l + 1 ≤ d + 1 := hd
      omega
    have hfix : patchElems (patchElems l fn rt).1 fn rt =
        ((patchElems l fn rt).1, 0) := by
      apply patchElems_of_fixed
      intro v hv
      rw [toList_patchElems] at hv
      obtain ⟨w, hw, hweq⟩ := List.mem_map.mp hv
      rw [← hweq]
      exact patchNode_idem_depth fn rt d w
        (le_trans (ydepth_of_mem_toListS l hw) hdl)
    rw [patchNode_seq]
    show patchNode (.seq (patchElems l fn rt).1) fn rt =
      (.seq (patchElems l fn rt).1, 0)
    rw [patchNode_seq, hfix]
  | Nat.succ d, .map m, hd => by
    have hdm : ydepthM m ≤ d := by
      have h1 : ydepthM m + 1 ≤ d + 1 := hd
      omega
    have hfix : patchEntries (patchEntries (fieldSetStep m fn rt).1 fn rt).1 fn rt =
        ((patchEntries (fieldSetStep m fn rt).1 fn rt).1, 0) := by
      apply patchEntries_of_fixed
      intro p hp
      rw [toList_patchEntries] at hp
      obtain ⟨q, hq, hqe⟩ := List.mem_map.mp hp
      rw [← hqe]
      show patchNode (patchNode q.2 fn rt).1 fn rt = ((patchNode q.2 fn rt).1, 0)
      exact patchNode_idem_depth fn rt d q.2
        (le_trans (le_trans (ydepth_of_mem_toListM _ hq)
          (ydepthM_fieldSetStep m fn rt)) hdm)
    rw [patchNode_map]
    show patchNode (.map (patchEntries (fieldSetStep m fn rt).1 fn rt).1) fn rt =
      (.map (patchEntries (fieldSetStep m fn rt).1 fn rt).1, 0)
    rw [patchNode_map]
    rw [fieldSetStep_of_ref _ fn rt (lookup_ref_after_patch m fn rt)]
    show (Yaml.map
        (patchEntries (patchEntries (fieldSetStep m fn rt).1 fn rt).1 fn rt).1,
      0 + (patchEntries (patchEntries (fieldSetStep m fn rt).1 fn rt).1 fn rt).2) = _
    rw [hfix]
    rfl

/-- Sequences whose elements are all dicts (the shape `filterDictSeq`
produces). -/
def allDictSeq : YSeq → Bool
  | .nil => true
  | .cons (.map _) t => allDictSeq t
  | .cons _ _ => false

theorem allDictSeq_filterDictSeq : ∀ l, allDictSeq (filterDictSeq l) = true
  | .nil => rfl
  | .cons v t => by
    have ih := allDictSeq_filterDictSeq t
    cases v with
    | map m => simp [filterDictSeq, allDictSeq, ih]
    | str s => simp [filterDictSeq, ih]
    | int n => simp [filterDictSeq, ih]
    | bool b => simp [filterDictSeq, ih]
    | null => simp [filterDictSeq, ih]
    | seq s => simp [filterDictSeq, ih]

theorem filterDictSeq_of_allDict : ∀ l, allDictSeq l = true → filterDictSeq l = l
  | .nil, _ => rfl
  | .cons v t, h => by
    cases v with
    | map m =>
      have ih := filterDictSeq_of_allDict t (by simpa [allDictSeq] using h)
      simp [filterDictSeq, ih]
    | str s => simp [allDictSeq] at h
    | int n => simp [allDictSeq] at h
    | bool b => simp [allDictSeq] at h
    | null => simp [allDictSeq] at h
    | seq s => simp [allDictSeq] at h

theorem allDictSeq_patchContainerSeq (fn rt : String) : ∀ l, allDictSeq l = true →
    allDictSeq (patchContainerSeq l fn rt).1 = true
  | .nil, _ => rfl
  | .cons v t, h => by
    cases v with
    | map fm =>
      have ih := allDictSeq_patchContainerSeq fn rt t (by simpa [allDictSeq] using h)
      by_cases hname : pyStrip (pyStr (fm.getD "name" (.str ""))) = fn
      · by_cases href : fm.lookup "ref_table" ≠ some (.str rt)
        · simp [patchContainerSeq, hname, href, allDictSeq, ih]
        · simp [patchContainerSeq, hname, href, allDictSeq, ih]
      · simp [patchContainerSeq, hname, allDictSeq, ih]
    | str s => simp [allDictSeq] at h
    | int n => simp [allDictSeq] at h
    | bool b => simp [allDictSeq] at h
    | null => simp [allDictSeq] at h
    | seq s => simp [allDictSeq] at h

/-- A second patch pass over a container changes nothing and reports no
change. -/
theorem patchContainerSeq_stable (fn rt : String) : ∀ l : YSeq,
    patchContainerSeq (patchContainerSeq l fn rt).1 fn rt =
      ((patchContainerSeq l fn rt).1, false)
  | .nil => rfl
  | .cons v t => by
    have ih := patchContainerSeq_stable fn rt t
    cases v with
    | map fm =>
      by_cases hname : pyStrip (pyStr (fm.getD "name" (.str ""))) = fn
      · by_cases href : fm.lookup "ref_table" ≠ some (.str rt)
        · have hnm : ("name" : String) ≠ "ref_table" := by decide
          have hl1 : (fm.setKey "ref_table" (.str rt)).getD "name" (.str "") =
              fm.getD "name" (.str "") := by
            simp [YMap.getD, lookup_setKey_ne fm (Yaml.str rt) hnm]
          have hl2 : (fm.setKey "ref_table" (.str rt)).lookup "ref_table" =
              some (.str rt) := lookup_setKey_self fm _ _
          simp [patchContainerSeq, hname, href, hl1, hl2, ih]
        · have href' : fm.lookup "ref_table" = some (.str rt) := not_not.mp href
          simp [patchContainerSeq, hname, href', ih]
      · simp [patchContainerSeq, hname, ih]
    | str s => simp [patchContainerSeq, ih]
    | int n => simp [patchContainerSeq, ih]
    | bool b => simp [patchContainerSeq, ih]
    | null => simp [patchContainerSeq, ih]
    | seq s => simp [patchContainerSeq, ih]

/-- A container slot of a mapping on which a second patch run is a no-op. -/
def GoodSlot (fn rt : String) (M : YMap) (key : String) : Prop :=
  ∀ l', M.lookup key = some (.seq l') →
    allDictSeq l' = true ∧ patchContainerSeq l' fn rt = (l', false)

theorem slotFilterPatch_of_good {fn rt : String} {M : YMap} {key : String}
    (h : GoodSlot fn rt M key) :
    (slotFilterPatch M key fn rt).1 = M ∧
      (slotFilterPatch M key fn rt).2.2 = false := by
  cases hM : M.lookup key with
  | none => simp [slotFilterPatch, hM]
  | some v =>
    cases v with
    | seq l =>
      obtain ⟨hall, hstab⟩ := h l hM
      have hr : patchContainerSeq (filterDictSeq l) fn rt = (l, false) := by
        rw [filterDictSeq_of_allDict l hall, hstab]
      simp [slotFilterPatch, hM, hr, setKey_self_of_lookup M hM]
    | map m => simp [slotFilterPatch, hM]
    | str s => simp [slotFilterPatch, hM]
    | int n => simp [slotFilterPatch, hM]
    | bool b => simp [slotFilterPatch, hM]
    | null => simp [slotFilterPatch, hM]

theorem GoodSlot_slotFilterPatch_self (fn rt : String) (M : YMap) (key : String) :
    GoodSlot fn rt ((slotFilterPatch M key fn rt).1) key := by
  intro l' hl'
  cases hM : M.lookup key with
  | none =>
    simp only [slotFilterPatch, hM] at hl'
    exact Option.noConfusion hl'
  | some v =>
    cases v with
    | seq l =>
      simp only [slotFilterPatch, hM, lookup_setKey_self, Option.some.injEq,
        Yaml.seq.injEq] at hl'
      rw [← hl']
      exact ⟨allDictSeq_patchContainerSeq fn rt _ (allDictSeq_filterDictSeq l),
        patchContainerSeq_stable fn rt (filterDictSeq l)⟩
    | map m =>
      simp only [slotFilterPatch, hM] at hl'
      simp at hl'
    | str s =>
      simp only [slotFilterPatch, hM] at hl'
      simp at hl'
    | int n =>
      simp only [slotFilterPatch, hM] at hl'
      simp at hl'
    | bool b =>
      simp only [slotFilterPatch, hM] at hl'
      simp at hl'
    | null =>
      simp only [slotFilterPatch, hM] at hl'
      simp at hl'

theorem slotFilterPatch_lookup_ne (fn rt : String) (M : YMap) {key key' : String}
    (h : key' ≠ key) :
    ((slotFilterPatch M key fn rt).1).lookup key' = M.lookup key' := by
  cases hM : M.lookup key with
  | none => simp [slotFilterPatch, hM]
  | some v =>
    cases v with
    | seq l => simp [slotFilterPatch, hM, lookup_setKey_ne M _ h]
    | map m => simp [slotFilterPatch, hM]
    | str s => simp [slotFilterPatch, hM]
    | int n => simp [slotFilterPatch, hM]
    | bool b => simp [slotFilterPatch, hM]
    | null => simp [slotFilterPatch, hM]

theorem GoodSlot_slot_ne {fn rt : String} {M : YMap} {key' : String}
    (g : GoodSlot fn rt M key') (key : String) (h : key' ≠ key) :
    GoodSlot fn rt ((slotFilterPatch M key fn rt).1) key' := by
  intro l' hl'
  rw [slotFilterPatch_lookup_ne fn rt M h] at hl'
  exact g l' hl'

theorem GoodSlot_setKey_ne {fn rt : String} {M : YMap} {key' : String}
    (g : GoodSlot fn rt M key') (key : String) (v : Yaml) (h : key' ≠ key) :
    GoodSlot fn rt (M.setKey key v) key' := by
  intro l' hl'
  rw [lookup_setKey_ne M v h] at hl'
  exact g l' hl'

/-- On a document all of whose container slots are already patched, a run of
`set_field_ref_table` returns the document unchanged with no change flag. -/
theorem setFieldRefTable_of_good {fn rt : String} {M : YMap}
    (hf : GoodSlot fn rt M "fields") (hc : GoodSlot fn rt M "columns")
    (hs : ∀ S, M.lookup "schema" = some (.map S) →
      GoodSlot fn rt S "fields" ∧ GoodSlot fn rt S "columns") :
    setFieldRefTable (.map M) fn rt = (.map M, false) := by
  obtain ⟨hf1, hf2⟩ := slotFilterPatch_of_good hf
  obtain ⟨hc1, hc2⟩ := slotFilterPatch_of_good hc
  simp only [setFieldRefTable]
  rw [hf1, hc1]
  cases hsch : M.lookup "schema" with
  | none => simp [hf2, hc2, hsch]
  | some v =>
    cases v with
    | map S =>
      obtain ⟨hSf, hSc⟩ := hs S hsch
      obtain ⟨hSf1, hSf2⟩ := slotFilterPatch_of_good hSf
      obtain ⟨hSc1, hSc2⟩ := slotFilterPatch_of_good hSc
      simp only [hsch]
      rw [hSf1, hSc1]
      simp [hf2, hc2, hSf2, hSc2]
    | seq l => simp [hf2, hc2, hsch]
    | str s => simp [hf2, hc2, hsch]
    | int n => simp [hf2, hc2, hsch]
    | bool b => simp [hf2, hc2, hsch]
    | null => simp [hf2, hc2, hsch]

/-- One run of `set_field_ref_table` on a mapping either reports no change
and returns the document, or reports a change and returns a document all of
whose container slots are stable. -/
theorem setFieldRefTable_run (dm : YMap) (fn rt : String) :
    setFieldRefTable (.map dm) fn rt = (.map dm, false) ∨
    ∃ R : YMap, setFieldRefTable (.map dm) fn rt = (.map R, true) ∧
      GoodSlot fn rt R "fields" ∧ GoodSlot fn rt R "columns" ∧
      ∀ S, R.lookup "schema" = some (.map S) →
        GoodSlot fn rt S "fields" ∧ GoodSlot fn rt S "columns" := by
  have gf2 : GoodSlot fn rt
      ((slotFilterPatch (slotFilterPatch dm "fields" fn rt).1 "columns" fn rt).1)
      "fields" :=
    GoodSlot_slot_ne (GoodSlot_slotFilterPatch_self fn rt dm "fields") "columns"
      (by decide)
  have gc2 : GoodSlot fn rt
      ((slotFilterPatch (slotFilterPatch dm "fields" fn rt).1 "columns" fn rt).1)
      "columns" :=
    GoodSlot_slotFilterPatch_self fn rt (slotFilterPatch dm "fields" fn rt).1
      "columns"
  simp only [setFieldRefTable]
  cases hsch : ((slotFilterPatch (slotFilterPatch dm "fields" fn rt).1 "columns"
      fn rt).1).lookup "schema" with
  | none =>
    split
    · exact Or.inl rfl
    · split
      · refine Or.inr ⟨_, rfl, gf2, gc2, fun S hS => ?_⟩
        rw [hsch] at hS
        exact Option.noConfusion hS
      · exact Or.inl rfl
  | some v =>
    cases v with
    | map sm =>
      split
      · exact Or.inl rfl
      · split
        · refine Or.inr ⟨_, rfl,
            GoodSlot_setKey_ne gf2 "schema" _ (by decide),
            GoodSlot_setKey_ne gc2 "schema" _ (by decide),
            fun S hS => ?_⟩
          rw [lookup_setKey_self] at hS
          obtain rfl : S = _ := by
            injection hS with h1
            injection h1.symm with h2
          exact ⟨GoodSlot_slot_ne (GoodSlot_slotFilterPatch_self fn rt sm "fields")
              "columns" (by decide),
            GoodSlot_slotFilterPatch_self fn rt
              (slotFilterPatch sm "fields" fn rt).1 "columns"⟩
        · exact Or.inl rfl
    | seq l =>
      split
      · exact Or.inl rfl
      · split
        · refine Or.inr ⟨_, rfl, gf2, gc2, fun S hS => ?_⟩
          rw [hsch] at hS
          simp at hS
        · exact Or.inl rfl
    | str s =>
      split
      · exact Or.inl rfl
      · split
        · refine Or.inr ⟨_, rfl, gf2, gc2, fun S hS => ?_⟩
          rw [hsch] at hS
          simp at hS
        · exact Or.inl rfl
    | int n =>
      split
      · exact Or.inl rfl
      · split
        · refine Or.inr ⟨_, rfl, gf2, gc2, fun S hS => ?_⟩
          rw [hsch] at hS
          simp at hS
        · exact Or.inl rfl
    | bool b =>
      split
      · exact Or.inl rfl
      · split
        · refine Or.inr ⟨_, rfl, gf2, gc2, fun S hS => ?_⟩
          rw [hsch] at hS
          simp at hS
        · exact Or.inl rfl
    | null =>
      split
      · exact Or.inl rfl
      · split
        · refine Or.inr ⟨_, rfl, gf2, gc2, fun S hS => ?_⟩
          rw [hsch] at hS
          simp at hS
        · exact Or.inl rfl

/-- Running `set_field_ref_table` twice with the same pair: the second run
returns the first run's document with `changed = False`. -/
theorem setFieldRefTable_idem (doc : Yaml) (fn rt : String) :
    setFieldRefTable (setFieldRefTable doc fn rt).1 fn rt =
      ((setFieldRefTable doc fn rt).1, false) := by
  cases doc with
  | map dm =>
    rcases setFieldRefTable_run dm fn rt with h | ⟨R, h, gf, gc, gs⟩
    · rw [h]
      show setFieldRefTable (.map dm) fn rt = (.map dm, false)
      exact h
    · rw [h]
      show setFieldRefTable (.map R) fn rt = (.map R, false)
      exact setFieldRefTable_of_good gf gc gs
  | str s => rfl
  | int n => rfl
  | bool b => rfl
  | null => rfl
  | seq l => rfl

/-- **C8.** Patch idempotence, for both patchers: for every document, field
name and target, applying the patcher a second time with the same
`(field, target)` pair leaves the first run's document unchanged and reports
zero changes — `patch_field_in_node` returns the same node with count `0`,
and `set_field_ref_table` returns the same document with `changed = False`. -/
theorem patch_twice_reports_zero (y : Yaml) (fn rt : String) :
    patchNode (patchNode y fn rt).1 fn rt = ((patchNode y fn rt).1, 0) ∧
    setFieldRefTable (setFieldRefTable y fn rt).1 fn rt =
      ((setFieldRefTable y fn rt).1, false) :=
  ⟨patchNode_idem_depth fn rt (ydepthY y) y (Nat.le_refl _),
   setFieldRefTable_idem y fn rt⟩

end SchemaSpec





